import Mathlib

/-!
Verification development for the loretech-skill run-tracking and
artifact-staging subsystem.

The embedding models:
* `src/src/runs.ts` — the run ledger and artifact store (`createRun`,
  `updateStep`, `completeRun`, `readMeta`, `writeArtifact`, `readArtifact`,
  `listArtifacts`);
* `src/src/server.ts` — the `loretech_echo` tool handler, the
  `loretech_rerun` tool handler and the background `pollWebsetDataset` loop;
* the local echo catalog (`writeEchoRef`, `readEchoRefs`, `parseEchoRef`).

File-system state is modelled as association lists keyed by run id and file
name.  Timestamps produced by `new Date().toISOString()` are supplied
explicitly as opaque strings.  JSON (de)serialisation of structured
artifacts is modelled by storing the structured value itself (a faithful
rendering of `JSON.stringify`/`JSON.parse` round-trips on these records).
-/

/-! ## Character-list text utilities (used by the catalog model) -/

abbrev Chars := List Char

/-- Whitespace class used by JS `\s`, `trim()` (restricted to the ASCII
whitespace that can occur in the modelled records). -/
def isWs (c : Char) : Bool := c == ' ' || c == '\t' || c == '\n' || c == '\r'

/-- Lexicographic comparison on char lists (models JS string comparison). -/
def lexLeCh : List Char → List Char → Bool
  | [], _ => true
  | _ :: _, [] => false
  | a :: xs, b :: ys => if a = b then lexLeCh xs ys else decide (a.val.toNat < b.val.toNat)

/-- Lexicographic `≤` on strings, as used by JS `Array.prototype.sort()`. -/
def strLe (a b : String) : Bool := lexLeCh a.toList b.toList

def strLeP (a b : String) : Prop := strLe a b = true

instance : DecidableRel strLeP := fun _ _ => instDecidableEqBool _ _

/-! ## Run ledger model (`src/src/runs.ts`) -/

inductive RunStatus
  | running
  | completed
  | failed
deriving DecidableEq

inductive StepStatus
  | pending
  | running
  | completed
  | failed
deriving DecidableEq

/-- `StepMeta` from `runs.ts`. -/
structure StepMeta where
  name : String
  status : StepStatus
  startedAt : Option String := none
  completedAt : Option String := none
  artifact : Option String := none
deriving DecidableEq

/-- `RunMeta` from `runs.ts`. -/
structure RunMeta where
  runId : String
  status : RunStatus
  startedAt : String
  completedAt : Option String := none
  steps : List StepMeta
  echoId : Option String := none
  error : Option String := none
deriving DecidableEq

/-- The fixed `STEPS` vocabulary from `runs.ts`. -/
def STEPS : List String := ["context", "sources", "compose", "store", "record", "webset"]

/-- The context artifact written to `context.json`.  The `loretech_echo`
handler writes `context`/`depth`/`focus`/`intent`/`signals`/`scope`/`source`;
the `loretech_rerun` handler writes `context`/`depth`/`focus`/
`replayedFrom`/`replayedStep`.  Absent JSON fields are `none` (matching
`JSON.stringify` dropping `undefined`).  The opaque `signals`/`source`
objects are modelled as atoms. -/
structure CtxArtifact where
  context : String
  depth : String
  focus : Option String := none
  intent : Option String := none
  signals : Option String := none
  scope : Option String := none
  source : Option String := none
  replayedFrom : Option String := none
  replayedStep : Option String := none
deriving DecidableEq

/-- Contents of one file inside a run directory.  `meta.json` holds the
structured `RunMeta` record; `context.json` holds the structured context
artifact; other artifacts are opaque text. -/
inductive FileData
  | metaFile (m : RunMeta)
  | ctxFile (c : CtxArtifact)
  | textFile (s : String)
deriving DecidableEq

/-- One run directory: file name to file contents, insertion-ordered. -/
abbrev RunDir := List (String × FileData)

/-- All run directories (`.loretech/runs/`), keyed by run id. -/
abbrev RunsState := List (String × RunDir)

/-- Write (create or overwrite) one file in a directory listing. -/
def setFile : RunDir → String → FileData → RunDir
  | [], n, d => [(n, d)]
  | p :: rest, n, d => if p.1 = n then (n, d) :: rest else p :: setFile rest n d

/-- Write (create or overwrite) one run directory. -/
def setDir : RunsState → String → RunDir → RunsState
  | [], r, dir => [(r, dir)]
  | p :: rest, r, dir => if p.1 = r then (r, dir) :: rest else p :: setDir rest r dir

/-- Look a run directory up (`fs.existsSync(runDir)` / `readdirSync`). -/
def lookupDir (st : RunsState) (r : String) : Option RunDir :=
  (st.find? (·.1 = r)).map (·.2)

/-- Look one file up inside a directory listing. -/
def findFile (dir : RunDir) (n : String) : Option FileData :=
  (dir.find? (·.1 = n)).map (·.2)

/-- Read one file of one run (`fs.readFileSync(runDir/filename)`), as
absence-aware lookup. -/
def readFile (st : RunsState) (r f : String) : Option FileData :=
  (lookupDir st r).bind (fun dir => findFile dir f)

/-- `readMeta` from `runs.ts`: parse `meta.json` if present. -/
def readMeta (st : RunsState) (r : String) : Option RunMeta :=
  (readFile st r "meta.json").bind (fun fd =>
    match fd with
    | .metaFile m => some m
    | _ => none)

/-- `writeMeta` from `runs.ts`.  `fs.writeFileSync` requires the run
directory to exist (every caller in the source creates it first); a missing
directory is left unchanged here, a state no caller reaches. -/
def writeMeta (st : RunsState) (r : String) (m : RunMeta) : RunsState :=
  match lookupDir st r with
  | some dir => setDir st r (setFile dir "meta.json" (.metaFile m))
  | none => st

/-- `fs.mkdirSync(dir, recursive: true)`: creates the directory when
absent, keeps it (contents included) when present. -/
def mkdirRun (st : RunsState) (r : String) : RunsState :=
  match lookupDir st r with
  | some _ => st
  | none => setDir st r []

/-- The fresh steps list built by `createRun`. -/
def initialSteps : List StepMeta := STEPS.map (fun n => { name := n, status := .pending })

/-- The fresh `RunMeta` built by `createRun` at time `now`. -/
def freshMeta (runId now : String) : RunMeta :=
  { runId := runId, status := .running, startedAt := now, steps := initialSteps }

/-- `createRun` from `runs.ts`: `mkdirSync` (recursive) then `writeMeta`
with a fresh record.  There is no duplicate check. -/
def createRun (st : RunsState) (runId now : String) : RunsState × RunMeta :=
  ((writeMeta (mkdirRun st runId) runId (freshMeta runId now)), freshMeta runId now)

/-- `writeArtifact` from `runs.ts`.  `fs.writeFileSync` requires the run
directory (all call sites run after `createRun`); on a missing directory the
source throws, a state no modelled caller reaches and left unchanged here. -/
def writeArtifact (st : RunsState) (r f : String) (d : FileData) : RunsState :=
  match lookupDir st r with
  | some dir => setDir st r (setFile dir f d)
  | none => st

/-- `readArtifact` from `runs.ts` (absence is `null`, not an error). -/
def readArtifact (st : RunsState) (r f : String) : Option FileData :=
  readFile st r f

/-- `listArtifacts` from `runs.ts`: `readdirSync(dir).sort()`, or `[]` when
the directory does not exist. -/
def listArtifacts (st : RunsState) (r : String) : List String :=
  match lookupDir st r with
  | none => []
  | some dir => List.insertionSort strLeP (dir.map (·.1))

/-- JS truthiness of an optional string (`undefined` and `""` are falsy). -/
def truthy : Option String → Bool
  | none => false
  | some s => s != ""

/-- Replace the first list entry whose step name matches. -/
def updateFirst (f : StepMeta → StepMeta) : List StepMeta → String → List StepMeta
  | [], _ => []
  | s :: rest, n => if s.name = n then f s :: rest else s :: updateFirst f rest n

/-- The field mutation `updateStep` performs on the step it found:
overwrite `status`, stamp `startedAt`/`completedAt`, and record the
artifact name when the argument is truthy. -/
def stepUpdater (status : StepStatus) (artifact : Option String) (now : String)
    (s : StepMeta) : StepMeta :=
  { s with
    status := status,
    startedAt := if status = .running then some now else s.startedAt,
    completedAt := if status = .completed ∨ status = .failed then some now else s.completedAt,
    artifact := if truthy artifact then artifact else s.artifact }

/-- The in-place step mutation performed by `updateStep` once the step is
found. -/
def updateStepMeta (m : RunMeta) (stepName : String) (status : StepStatus)
    (artifact : Option String) (now : String) : RunMeta :=
  { m with steps := updateFirst (stepUpdater status artifact now) m.steps stepName }

/-- `updateStep` from `runs.ts`: read `meta.json` (no-op when absent), find
the step by name (no-op when absent), overwrite its status unconditionally,
stamp timestamps, persist. -/
def updateStep (st : RunsState) (r stepName : String) (status : StepStatus)
    (artifact : Option String) (now : String) : RunsState :=
  match readMeta st r with
  | none => st
  | some m =>
    if m.steps.any (·.name = stepName) then
      writeMeta st r (updateStepMeta m stepName status artifact now)
    else st

/-- The record mutation performed by `completeRun`: status decided by the
truthiness of `error`, `completedAt` restamped, `echoId`/`error` overwritten
only when truthy. -/
def completeRunMeta (m : RunMeta) (echoId? error? : Option String) (now : String) : RunMeta :=
  { m with
    status := if truthy error? then .failed else .completed,
    completedAt := some now,
    echoId := if truthy echoId? then echoId? else m.echoId,
    error := if truthy error? then error? else m.error }

/-- `completeRun` from `runs.ts` (no-op when `meta.json` is absent). -/
def completeRun (st : RunsState) (r : String) (echoId? error? : Option String)
    (now : String) : RunsState :=
  match readMeta st r with
  | none => st
  | some m => writeMeta st r (completeRunMeta m echoId? error? now)

/-! Observation helpers on the ledger. -/

def runStatus (st : RunsState) (r : String) : Option RunStatus :=
  (readMeta st r).map (·.status)

def runError (st : RunsState) (r : String) : Option (Option String) :=
  (readMeta st r).map (·.error)

def runEchoId (st : RunsState) (r : String) : Option (Option String) :=
  (readMeta st r).map (·.echoId)

def runCompletedAt (st : RunsState) (r : String) : Option (Option String) :=
  (readMeta st r).map (·.completedAt)

def stepStatusOf (m : RunMeta) (n : String) : Option StepStatus :=
  (m.steps.find? (·.name = n)).map (·.status)

def stepStatus (st : RunsState) (r n : String) : Option StepStatus :=
  (readMeta st r).bind (fun m => stepStatusOf m n)

/-! ## Background webset polling (`pollWebsetDataset` in `src/src/server.ts`)

The loop is driven by `setTimeout` re-arming itself; real time is abstracted
away.  Each attempt's interaction with the remote engine is an element of an
outcome trace; the timestamps taken by `new Date()` are drawn from a `clock`
indexed by attempt number.  The companion write of the dataset into the
`echoes` directory is catalog state, modelled separately. -/

def MAX_ATTEMPTS : Nat := 30

/-- What one poll attempt observes from `fetch` of the engine. -/
inductive PollOutcome
  | fetchFault                -- `fetch`/`res.json()` threw; caught by the `catch` block
  | notOk                     -- response received with `res.ok` false
  | okIncomplete              -- ok response, but no completed webset with data yet
  | okData (dataset : String) -- ok response carrying the completed dataset
deriving DecidableEq

/-- The `poll` callback chain of `pollWebsetDataset`: `attempts` counts the
invocations so far; the trace supplies one outcome per attempt.  Mirrors the
source exactly: `okData` writes `dataset.json` and completes the `webset`
step; `notOk` returns from the callback without scheduling another attempt
and without updating the step; a fault or an incomplete response falls
through to the re-arm check, which completes the step once `MAX_ATTEMPTS`
is exhausted. -/
def pollLoop (st : RunsState) (runId : String) :
    List PollOutcome → Nat → (Nat → String) → RunsState
  | [], _, _ => st
  | o :: rest, attempts, clock =>
    let attempts := attempts + 1
    match o with
    | .notOk => st
    | .okData ds =>
        let st := writeArtifact st runId "dataset.json" (.textFile ds)
        updateStep st runId "webset" .completed none (clock attempts)
    | _ =>
        if attempts < MAX_ATTEMPTS then pollLoop st runId rest attempts clock
        else updateStep st runId "webset" .completed none (clock attempts)

/-! ## The `loretech_echo` tool handler (`src/src/server.ts`)

The handler is straight-line; its interactions with the environment are an
oracle: `contextFault` is an exception thrown by the file system while
staging the context artifact (this part of the handler runs before the
`try` block), `engine` is the behaviour of the `fetch` of the engine, and
`postEngineFault` is an exception thrown inside the `try` block after a
successful engine response (all its writes are modelled at that single
point).  A single `now` stands for the closely spaced `new Date()` reads of
the synchronous path.  The `writeEchoRef` call of the success path mutates
the catalog, which is modelled separately below. -/

structure EnvKeys where
  loretechKey : Option String := none
  openrouterKey : Option String := none
  exaKey : Option String := none

structure EchoArgs where
  context : String
  depth : String
  focus : Option String := none
  intent : Option String := none
  signals : Option String := none
  scope : Option String := none
  source : Option String := none
  echoId : Option String := none
  model : Option String := none
deriving DecidableEq

/-- The successful engine response fields the handlers consume. -/
structure EngineSuccess where
  echoId : String
  status : String
  title : String
  markdown : String
  sourcesJson : String
  privateKey : String
  createdAtR : String
  updatedAtR : String
  websetId : Option String := none
deriving DecidableEq

inductive EngineOutcome
  | fault (msg : String)            -- `fetch` rejected (network error or timeout)
  | notOk (code : Nat) (text : String) -- response with `res.ok` false
  | ok (d : EngineSuccess)
deriving DecidableEq

structure EchoOracle where
  contextFault : Option String := none
  engine : EngineOutcome
  postEngineFault : Option String := none

inductive HandlerOutcome
  | success (text : String)
  | errorResult (text : String)     -- returned with `isError: true`
  | thrown (msg : String)           -- an exception escaped the handler
deriving DecidableEq

/-- The context artifact written by `loretech_echo` (all input fields). -/
def ctxOfArgs (args : EchoArgs) : CtxArtifact :=
  { context := args.context, depth := args.depth, focus := args.focus,
    intent := args.intent, signals := args.signals, scope := args.scope,
    source := args.source }

/-- The `loretech_echo` handler of `server.ts`. -/
def loretoolEcho (env : EnvKeys) (args : EchoArgs) (oracle : EchoOracle)
    (runId now : String) (st : RunsState) : HandlerOutcome × RunsState :=
  if !(truthy env.loretechKey && truthy env.openrouterKey && truthy env.exaKey) then
    (.errorResult "Missing API keys. Run bunx loretech to configure.", st)
  else
    let st := (createRun st runId now).1
    let st := updateStep st runId "context" .running none now
    match oracle.contextFault with
    | some msg => (.thrown msg, st)
    | none =>
      let st := writeArtifact st runId "context.json" (.ctxFile (ctxOfArgs args))
      let st := updateStep st runId "context" .completed (some "context.json") now
      let st := updateStep st runId "sources" .running none now
      match oracle.engine with
      | .fault msg =>
          (.errorResult ("Echo creation failed: " ++ msg),
           completeRun st runId none (some msg) now)
      | .notOk code text =>
          let st := updateStep st runId "sources" .failed none now
          let st := completeRun st runId none
            (some ("Engine returned " ++ toString code ++ ": " ++ text)) now
          (.errorResult ("Echo creation failed (" ++ toString code ++ "): " ++ text), st)
      | .ok d =>
        match oracle.postEngineFault with
        | some msg =>
            (.errorResult ("Echo creation failed: " ++ msg),
             completeRun st runId none (some msg) now)
        | none =>
          let st := writeArtifact st runId "sources.json" (.textFile d.sourcesJson)
          let st := updateStep st runId "sources" .completed (some "sources.json") now
          let st := updateStep st runId "compose" .running none now
          let st := writeArtifact st runId "echo.md" (.textFile d.markdown)
          let st := updateStep st runId "compose" .completed (some "echo.md") now
          let st := updateStep st runId "store" .running none now
          let st := updateStep st runId "store" .completed none now
          let st := updateStep st runId "record" .completed none now
          let st := if truthy d.websetId
            then updateStep st runId "webset" .running none now
            else updateStep st runId "webset" .completed none now
          let st := completeRun st runId (some d.echoId) none now
          (.success d.markdown, st)

/-! ## The `loretech_rerun` tool handler (`src/src/server.ts`) -/

/-- Keep an optional field only when truthy (models `if (x) body.x = x`). -/
def truthyOpt (o : Option String) : Option String := if truthy o then o else none

/-- The request body sent to `POST /echo`. -/
structure EngineBody where
  context : String
  depth : String
  focus : Option String := none
  intent : Option String := none
  signals : Option String := none
  scope : Option String := none
  source : Option String := none
  echoId : Option String := none
  model : Option String := none
deriving DecidableEq

/-- Input derivation of `loretech_rerun`: the engine request body and the
new run's context artifact, from the source run's stored context artifact.
The content is overridden only when replaying from `"context"` with a
truthy override; the body carries the original auxiliary fields (each under
its truthiness guard); the new artifact carries `context`, `depth`, `focus`
and the two traceability fields. -/
def rerunDerive (orig : CtxArtifact) (fromStep : String) (override : Option String)
    (srcRunId : String) : EngineBody × CtxArtifact :=
  let context :=
    if fromStep = "context" ∧ truthy override = true then override.getD "" else orig.context
  ({ context := context, depth := orig.depth,
     focus := truthyOpt orig.focus, intent := truthyOpt orig.intent,
     signals := truthyOpt orig.signals, scope := truthyOpt orig.scope,
     source := truthyOpt orig.source },
   { context := context, depth := orig.depth, focus := orig.focus,
     replayedFrom := some srcRunId, replayedStep := some fromStep })

/-- Read and parse `context.json` of a run (`readArtifact` + `JSON.parse`). -/
def readCtx (st : RunsState) (r : String) : Option CtxArtifact :=
  (readFile st r "context.json").bind (fun fd =>
    match fd with
    | .ctxFile c => some c
    | _ => none)

/-- The `loretech_rerun` handler of `server.ts`. -/
def loretoolRerun (env : EnvKeys) (srcRunId fromStep : String)
    (override : Option String) (engine : EngineOutcome)
    (newRunId now : String) (st : RunsState) : HandlerOutcome × RunsState :=
  match readMeta st srcRunId with
  | none => (.errorResult ("Run " ++ srcRunId ++ " not found."), st)
  | some _ =>
    match readCtx st srcRunId with
    | none =>
        (.errorResult ("No context.json found in run " ++ srcRunId ++ ". Cannot replay."), st)
    | some orig =>
      if !(truthy env.loretechKey && truthy env.openrouterKey && truthy env.exaKey) then
        (.errorResult "Missing API keys. Run bunx loretech to configure.", st)
      else
        let derived := rerunDerive orig fromStep override srcRunId
        let st := (createRun st newRunId now).1
        let st := updateStep st newRunId "context" .running none now
        let st := writeArtifact st newRunId "context.json" (.ctxFile derived.2)
        let st := updateStep st newRunId "context" .completed (some "context.json") now
        let st := updateStep st newRunId "sources" .running none now
        match engine with
        | .fault msg =>
            (.errorResult ("Rerun failed: " ++ msg),
             completeRun st newRunId none (some msg) now)
        | .notOk code text =>
            let st := updateStep st newRunId "sources" .failed none now
            let st := completeRun st newRunId none
              (some ("Engine returned " ++ toString code ++ ": " ++ text)) now
            (.errorResult ("Rerun failed (" ++ toString code ++ "): " ++ text), st)
        | .ok d =>
            let st := writeArtifact st newRunId "sources.json" (.textFile d.sourcesJson)
            let st := updateStep st newRunId "sources" .completed (some "sources.json") now
            let st := updateStep st newRunId "compose" .running none now
            let st := writeArtifact st newRunId "echo.md" (.textFile d.markdown)
            let st := updateStep st newRunId "compose" .completed (some "echo.md") now
            let st := updateStep st newRunId "store" .running none now
            let st := updateStep st newRunId "store" .completed none now
            let st := updateStep st newRunId "record" .completed none now
            let st := updateStep st newRunId "webset"
              (if truthy d.websetId then .running else .completed) none now
            let st := completeRun st newRunId (some d.echoId) none now
            (.success d.markdown, st)

/-! ## Local echo catalog (`writeEchoRef` / `readEchoRefs` / `parseEchoRef`)

File text is modelled as `Chars` (`List Char`).  The frontmatter regex
`^---\n([\s\S]*?)\n---` of `parseEchoRef` is rendered line-wise: it matches
exactly when the first line is `---` and some later line starts with `---`,
capturing the lines in between.  The per-key regex `^key:\s*(.+)$` (with the
`m` flag) is rendered as: the first line that starts with `key:` followed by
at least one character; the capture is the remainder with leading whitespace
dropped (backtracking keeps one whitespace character when the remainder is
all whitespace). -/

/-- Split on newline characters (`String.prototype.split("\n")` shape). -/
def nsplit : Chars → List Chars
  | [] => [[]]
  | c :: rest =>
    if c = '\n' then [] :: nsplit rest
    else
      match nsplit rest with
      | h :: t => (c :: h) :: t
      | [] => [[c]]

/-- Join lines with newline characters (`Array.prototype.join("\n")`). -/
def njoin : List Chars → Chars
  | [] => []
  | [l] => l
  | l :: ls => l ++ '\n' :: njoin ls

/-- First list element satisfying the predicate. -/
def findLine (p : Chars → Bool) : List Chars → Option Chars
  | [] => none
  | l :: ls => if p l then some l else findLine p ls

/-- Index of the first list element satisfying the predicate. -/
def findIdxOpt (p : Chars → Bool) : List Chars → Option Nat
  | [] => none
  | l :: ls => if p l then some 0 else (findIdxOpt p ls).map (· + 1)

/-- Index of the first occurrence of `pat` (JS `indexOf`, `pat` nonempty). -/
def idxOf (pat : Chars) : Chars → Option Nat
  | [] => if pat.isEmpty then some 0 else none
  | c :: rest =>
    if pat.isPrefixOf (c :: rest) then some 0 else (idxOf pat rest).map (· + 1)

/-- `indexOf` with a start position (JS `s.indexOf(pat, start)`). -/
def idxOfFrom (pat s : Chars) (start : Nat) : Option Nat :=
  (idxOf pat (s.drop start)).map (· + start)

/-- JS `String.prototype.trim()`. -/
def jsTrim (s : Chars) : Chars :=
  ((s.dropWhile isWs).reverse.dropWhile isWs).reverse

/-- `.replace(/^"|"$/g, "")`: strip at most one leading and one trailing
double quote. -/
def stripQuotes (s : Chars) : Chars :=
  let s1 := if s.head? = some '"' then s.tail else s
  if s1.getLast? = some '"' then s1.dropLast else s1

/-- The `\s*(.+)` capture on the text after `key:` (the argument is
nonempty).  Greedy `\s*` takes all leading whitespace; when nothing is left
backtracking hands one whitespace character back to `(.+)`. -/
def capture (rest : Chars) : Chars :=
  let t := rest.dropWhile isWs
  if t.isEmpty then rest.drop (rest.length - 1) else t

/-- The `get(key)` helper of `parseEchoRef`: match `^key:\s*(.+)$` over the
frontmatter lines, strip one boundary quote pair, trim; `""` when no line
matches. -/
def getField (fm : List Chars) (key : Chars) : Chars :=
  match findLine (fun l => (key ++ [':']).isPrefixOf l && !(l.drop (key.length + 1)).isEmpty) fm with
  | none => []
  | some l => jsTrim (stripQuotes (capture (l.drop (key.length + 1))))

/-- The frontmatter block of `parseEchoRef`: requires the content to start
with a `---` line; the closing fence is a later line starting with `---`.
Because `^---\n` has already consumed the newline after the opening fence,
the closing `\n---` can match no earlier than the newline ending the next
line: the capture always holds at least one (possibly empty) line, and a
`---` line immediately after the opening fence is captured, not treated as
the close. -/
def fmOf (content : Chars) : Option (List Chars) :=
  match nsplit content with
  | [] => none
  | first :: rest =>
    if first = "---".toList then
      match rest with
      | [] => none
      | r0 :: rtail =>
        match findIdxOpt (fun l => ("---".toList).isPrefixOf l) rtail with
        | some k => some (r0 :: rtail.take k)
        | none => none
    else none

/-- The body extraction of `parseEchoRef`:
`content.slice(content.indexOf("\n", content.indexOf("---", 4)) + 1).trim()`
(with the `-1` index conventions of JS). -/
def extractMarkdown (content : Chars) : Chars :=
  match idxOfFrom "---".toList content 4 with
  | none => []
  | some bodyStart =>
    match idxOfFrom ['\n'] content bodyStart with
    | some j => jsTrim (content.drop (j + 1))
    | none => jsTrim content

/-- The `EchoRef` record of `memory.ts` (fields as char lists). -/
structure EchoRef where
  echoId : Chars
  privateKey : Chars
  title : Chars
  status : Chars
  createdAt : Chars
  updatedAt : Chars
  markdown : Chars
  jsonPath : Option Chars := none
deriving DecidableEq

/-- `parseEchoRef` of `memory.ts`: frontmatter block, mandatory
`echoId`/`privateKey`, `status` defaulting to `draft`, body text. -/
def parseEchoRef (content : Chars) : Option EchoRef :=
  match fmOf content with
  | none => none
  | some fm =>
    let eid := getField fm "echoId".toList
    let pk := getField fm "privateKey".toList
    if eid.isEmpty || pk.isEmpty then none
    else
      let s := getField fm "status".toList
      some { echoId := eid, privateKey := pk,
             title := getField fm "title".toList,
             status := if s.isEmpty then "draft".toList else s,
             createdAt := getField fm "createdAt".toList,
             updatedAt := getField fm "updatedAt".toList,
             markdown := extractMarkdown content }

/-- `.replace(/"/g, '\\"')` used on the title by `writeEchoRef`. -/
def escapeQuotes : Chars → Chars
  | [] => []
  | c :: t => (if c = '"' then ['\\', '"'] else [c]) ++ escapeQuotes t

/-- The frontmatter lines assembled by `writeEchoRef`. -/
def frontmatterLines (ref : EchoRef) (hasDataset : Bool) : List Chars :=
  ["---".toList,
   "echoId: ".toList ++ ref.echoId,
   "privateKey: ".toList ++ ref.privateKey,
   "title: ".toList ++ '"' :: (escapeQuotes ref.title ++ ['"']),
   "status: ".toList ++ ref.status,
   "createdAt: ".toList ++ ref.createdAt,
   "updatedAt: ".toList ++ ref.updatedAt]
  ++ (if hasDataset
      then ["dataset: ".toList ++ '"' :: ('[' :: '[' :: (ref.echoId ++ ".json".toList ++ [']', ']', '"']))]
      else [])
  ++ ["---".toList]

/-- The full file content written by `writeEchoRef` (frontmatter plus body;
a falsy/empty body writes the frontmatter with a single trailing newline). -/
def echoFileContent (ref : EchoRef) (hasDataset : Bool) : Chars :=
  let fm := njoin (frontmatterLines ref hasDataset)
  if ref.markdown.isEmpty then fm ++ ['\n']
  else fm ++ '\n' :: '\n' :: (ref.markdown ++ ['\n'])

/-- The echoes directory: file name to file content. -/
abbrev EchoDir := List (Chars × Chars)

/-- Write (create or overwrite) one catalog file. -/
def setFileC : EchoDir → Chars → Chars → EchoDir
  | [], n, d => [(n, d)]
  | p :: rest, n, d => if p.1 = n then (n, d) :: rest else p :: setFileC rest n d

/-- `writeEchoRef` of `memory.ts`: write `{echoId}.md`, and additionally the
companion `{echoId}.json` when a dataset is supplied. -/
def writeEchoRefOp (dir : EchoDir) (ref : EchoRef) (dataset : Option Chars) : EchoDir :=
  let dir := setFileC dir (ref.echoId ++ ".md".toList) (echoFileContent ref dataset.isSome)
  match dataset with
  | some ds => setFileC dir (ref.echoId ++ ".json".toList) ds
  | none => dir

def lexLeChP (a b : Chars) : Prop := lexLeCh a b = true

instance : DecidableRel lexLeChP := fun _ _ => instDecidableEqBool _ _

/-- Relation used to order refs newest-`updatedAt` first
(`b.updatedAt.localeCompare(a.updatedAt)`, modelled lexicographically). -/
def updatedDesc (a b : EchoRef) : Prop := lexLeChP b.updatedAt a.updatedAt

instance : DecidableRel updatedDesc := fun _ _ => instDecidableEqBool _ _

/-- `readEchoRefs` of `memory.ts`: parse every `.md` file, skip the ones
`parseEchoRef` rejects, attach `jsonPath` when the companion exists, sort
newest-updated first. -/
def readEchoRefs (dir : EchoDir) : List EchoRef :=
  let refs := dir.filterMap (fun p =>
    if (".md".toList).isSuffixOf p.1 then
      (parseEchoRef p.2).map (fun r =>
        if dir.any (·.1 = r.echoId ++ ".json".toList)
        then { r with jsonPath := some (r.echoId ++ ".json".toList) }
        else r)
    else none)
  List.insertionSort updatedDesc refs

/-- A frontmatter file shape: a `---` line, the given frontmatter lines, a
closing line starting with `---`, and arbitrary trailing text. -/
def mkFile (fm : List Chars) (rest : Chars) : Chars :=
  njoin ("---".toList :: fm) ++ '\n' :: ("---".toList ++ rest)

/-- The key/value lines `writeEchoRef` places between the `---` fences. -/
def fmInner (ref : EchoRef) (hasDataset : Bool) : List Chars :=
  ["echoId: ".toList ++ ref.echoId,
   "privateKey: ".toList ++ ref.privateKey,
   "title: ".toList ++ '"' :: (escapeQuotes ref.title ++ ['"']),
   "status: ".toList ++ ref.status,
   "createdAt: ".toList ++ ref.createdAt,
   "updatedAt: ".toList ++ ref.updatedAt]
  ++ (if hasDataset
      then ["dataset: ".toList ++ '"' :: ('[' :: '[' :: (ref.echoId ++ ".json".toList ++ [']', ']', '"']))]
      else [])

/-- The text `writeEchoRef` places after the closing fence. -/
def mdTail (ref : EchoRef) : Chars :=
  if ref.markdown.isEmpty then ['\n'] else '\n' :: '\n' :: (ref.markdown ++ ['\n'])

/-- A well-behaved frontmatter value: nonempty, and made of characters that
are not whitespace, not a double quote and not a newline (ids, statuses and
timestamps in the source all satisfy this). -/
def cleanFieldB (s : Chars) : Bool :=
  !s.isEmpty && s.all (fun c => !(isWs c) && c != '"' && c != '\n')

/-- A well-behaved title: no newline, and no whitespace at either end
(quotes anywhere are fine — they are the point of claim C5). -/
def titleCleanB (s : Chars) : Bool :=
  s.all (fun c => c != '\n')
    && (match s.head? with | none => true | some c => !(isWs c))
    && (match s.getLast? with | none => true | some c => !(isWs c))

/-! Observation helpers on handler outcomes. -/

/-- Whether a handler outcome is an exception that escaped the handler. -/
def isThrown : HandlerOutcome → Bool
  | .thrown _ => true
  | _ => false

/-- The message of an engine-call rejection, when the outcome is one. -/
def engineFaultMsg : EngineOutcome → Option String
  | .fault m => some m
  | _ => none

/-- The concrete directory listing used by the C9 witness. -/
def c9Dir : RunDir :=
  (lookupDir (writeArtifact (createRun [] "r1" "t0").1 "r1" "context.json" (.textFile "x")) "r1").getD []

/-- The concrete echo reference used by claim C5: its title carries a
double quote. -/
def c5Ref : EchoRef :=
  { echoId := "e".toList, privateKey := "k".toList, title := "a\"b".toList,
    status := "s".toList, createdAt := "c".toList, updatedAt := "u".toList,
    markdown := [] }

/-- Frontmatter lines with `echoId` and `privateKey` but no `status` line
(claim C10, default case). -/
def c10FmA : List Chars :=
  ["echoId: e2".toList, "privateKey: k2".toList, "title: \"T\"".toList]

/-- Frontmatter lines missing the `privateKey` line (claim C10, skip
case). -/
def c10FmB : List Chars :=
  ["echoId: e3".toList, "title: \"T\"".toList]

/-! ## Lemmas about the run ledger primitives -/

theorem findFile_cons (q : String) (fd : FileData) (rest : RunDir) (f : String) :
    findFile ((q, fd) :: rest) f = if q = f then some fd else findFile rest f := by
  by_cases h : q = f <;> simp [findFile, List.find?, h]

theorem findFile_setFile_self (dir : RunDir) (n : String) (d : FileData) :
    findFile (setFile dir n d) n = some d := by
  induction dir with
  | nil => simp [setFile, findFile_cons]
  | cons p rest ih =>
    obtain ⟨q, fd⟩ := p
    by_cases h : q = n
    · simp [setFile, h, findFile_cons]
    · simp [setFile, h, findFile_cons, ih]

theorem findFile_setFile_ne (dir : RunDir) (n f : String) (d : FileData) (h : f ≠ n) :
    findFile (setFile dir n d) f = findFile dir f := by
  induction dir with
  | nil => simp [setFile, findFile_cons, findFile, Ne.symm h]
  | cons p rest ih =>
    obtain ⟨q, fd⟩ := p
    by_cases hq : q = n
    · subst hq
      simp [setFile, findFile_cons, Ne.symm h]
    · simp [setFile, hq, findFile_cons, ih]

theorem lookupDir_cons (q : String) (d : RunDir) (rest : RunsState) (r : String) :
    lookupDir ((q, d) :: rest) r = if q = r then some d else lookupDir rest r := by
  by_cases h : q = r <;> simp [lookupDir, List.find?, h]

theorem lookupDir_setDir_self (st : RunsState) (r : String) (dir : RunDir) :
    lookupDir (setDir st r dir) r = some dir := by
  induction st with
  | nil => simp [setDir, lookupDir_cons]
  | cons p rest ih =>
    obtain ⟨q, d⟩ := p
    by_cases h : q = r
    · simp [setDir, h, lookupDir_cons]
    · simp [setDir, h, lookupDir_cons, ih]

theorem lookupDir_setDir_ne (st : RunsState) (r r' : String) (dir : RunDir) (h : r' ≠ r) :
    lookupDir (setDir st r dir) r' = lookupDir st r' := by
  induction st with
  | nil => simp [setDir, lookupDir_cons, lookupDir, Ne.symm h]
  | cons p rest ih =>
    obtain ⟨q, d⟩ := p
    by_cases hq : q = r
    · subst hq
      simp [setDir, lookupDir_cons, Ne.symm h]
    · simp [setDir, hq, lookupDir_cons, ih]

theorem lookupDir_isSome_of_readMeta {st : RunsState} {r : String} {m : RunMeta}
    (h : readMeta st r = some m) : (lookupDir st r).isSome := by
  unfold readMeta readFile at h
  cases hd : lookupDir st r with
  | none => rw [hd] at h; simp at h
  | some dir => simp

theorem readMeta_writeMeta {st : RunsState} {r : String} (m : RunMeta)
    (h : (lookupDir st r).isSome) : readMeta (writeMeta st r m) r = some m := by
  rcases Option.isSome_iff_exists.mp h with ⟨dir, hd⟩
  unfold writeMeta
  rw [hd]
  unfold readMeta readFile
  rw [lookupDir_setDir_self]
  simp [findFile_setFile_self]

theorem lookupDir_writeMeta_isSome {st : RunsState} {r : String} (m : RunMeta)
    (h : (lookupDir st r).isSome) : (lookupDir (writeMeta st r m) r).isSome := by
  rcases Option.isSome_iff_exists.mp h with ⟨dir, hd⟩
  unfold writeMeta
  rw [hd, lookupDir_setDir_self]
  simp

theorem readFile_writeMeta {st : RunsState} {r r' f : String} (m : RunMeta)
    (h : f ≠ "meta.json") : readFile (writeMeta st r m) r' f = readFile st r' f := by
  unfold writeMeta
  cases hd : lookupDir st r with
  | none => rfl
  | some dir =>
    by_cases hr : r' = r
    · subst hr
      unfold readFile
      rw [lookupDir_setDir_self, hd]
      simp [findFile_setFile_ne _ _ _ _ h]
    · unfold readFile
      rw [lookupDir_setDir_ne _ _ _ _ hr]

theorem readFile_writeArtifact_ne {st : RunsState} {r r' g f : String} (d : FileData)
    (h : f ≠ g) : readFile (writeArtifact st r g d) r' f = readFile st r' f := by
  unfold writeArtifact
  cases hd : lookupDir st r with
  | none => rfl
  | some dir =>
    by_cases hr : r' = r
    · subst hr
      unfold readFile
      rw [lookupDir_setDir_self, hd]
      simp [findFile_setFile_ne _ _ _ _ h]
    · unfold readFile
      rw [lookupDir_setDir_ne _ _ _ _ hr]

theorem readMeta_writeArtifact {st : RunsState} {r r' g : String} (d : FileData)
    (h : g ≠ "meta.json") : readMeta (writeArtifact st r g d) r' = readMeta st r' := by
  unfold readMeta
  rw [readFile_writeArtifact_ne d (Ne.symm h)]

theorem lookupDir_writeArtifact_isSome {st : RunsState} {r g : String} (d : FileData)
    (h : (lookupDir st r).isSome) : (lookupDir (writeArtifact st r g d) r).isSome := by
  rcases Option.isSome_iff_exists.mp h with ⟨dir, hd⟩
  unfold writeArtifact
  rw [hd, lookupDir_setDir_self]
  simp

theorem readFile_writeArtifact_self {st : RunsState} {r g : String} (d : FileData)
    (h : (lookupDir st r).isSome) : readFile (writeArtifact st r g d) r g = some d := by
  rcases Option.isSome_iff_exists.mp h with ⟨dir, hd⟩
  unfold writeArtifact
  rw [hd]
  unfold readFile
  rw [lookupDir_setDir_self]
  simp [findFile_setFile_self]

theorem lookupDir_mkdirRun_isSome (st : RunsState) (r : String) :
    (lookupDir (mkdirRun st r) r).isSome := by
  unfold mkdirRun
  cases hd : lookupDir st r with
  | none => rw [lookupDir_setDir_self]; simp
  | some dir => rw [hd]; simp

theorem readMeta_createRun (st : RunsState) (r t : String) :
    readMeta (createRun st r t).1 r = some (freshMeta r t) := by
  unfold createRun
  exact readMeta_writeMeta _ (lookupDir_mkdirRun_isSome st r)

theorem lookupDir_createRun_isSome (st : RunsState) (r t : String) :
    (lookupDir (createRun st r t).1 r).isSome := by
  unfold createRun
  exact lookupDir_writeMeta_isSome _ (lookupDir_mkdirRun_isSome st r)

theorem readFile_mkdirRun {st : RunsState} {r r' f : String} :
    readFile (mkdirRun st r) r' f = readFile st r' f := by
  unfold mkdirRun
  cases hd : lookupDir st r with
  | none =>
    by_cases hr : r' = r
    · subst hr
      unfold readFile
      rw [lookupDir_setDir_self, hd]
      simp [findFile]
    · unfold readFile
      rw [lookupDir_setDir_ne _ _ _ _ hr]
  | some dir => rfl

theorem readFile_createRun {st : RunsState} {r r' t f : String} (h : f ≠ "meta.json") :
    readFile (createRun st r t).1 r' f = readFile st r' f := by
  unfold createRun
  rw [readFile_writeMeta _ h, readFile_mkdirRun]

theorem updateStep_eq {st : RunsState} {r : String} {m : RunMeta} {n : String}
    {s : StepStatus} {a : Option String} {t : String}
    (h : readMeta st r = some m) (hs : m.steps.any (·.name = n) = true) :
    updateStep st r n s a t = writeMeta st r (updateStepMeta m n s a t) := by
  simp [updateStep, h, hs]

theorem completeRun_eq {st : RunsState} {r : String} {m : RunMeta}
    {o e : Option String} {t : String} (h : readMeta st r = some m) :
    completeRun st r o e t = writeMeta st r (completeRunMeta m o e t) := by
  simp [completeRun, h]

theorem updateFirst_names (f : StepMeta → StepMeta) (l : List StepMeta) (n : String)
    (hf : ∀ s, (f s).name = s.name) :
    (updateFirst f l n).map (·.name) = l.map (·.name) := by
  induction l with
  | nil => rfl
  | cons s rest ih =>
    by_cases h : s.name = n
    · simp [updateFirst, h, hf]
    · simp [updateFirst, h, ih]

theorem updateFirst_find?_self (f : StepMeta → StepMeta) (l : List StepMeta) (n : String)
    (hf : ∀ s, (f s).name = s.name) :
    (updateFirst f l n).find? (·.name = n) = (l.find? (·.name = n)).map f := by
  induction l with
  | nil => rfl
  | cons s rest ih =>
    by_cases h : s.name = n
    · simp [updateFirst, h, List.find?, hf]
    · simp [updateFirst, h, List.find?, ih]

theorem updateFirst_find?_ne (f : StepMeta → StepMeta) (l : List StepMeta) (n n' : String)
    (hf : ∀ s, (f s).name = s.name) (h : n' ≠ n) :
    (updateFirst f l n).find? (·.name = n') = l.find? (·.name = n') := by
  induction l with
  | nil => rfl
  | cons s rest ih =>
    by_cases hn : s.name = n
    · simp [updateFirst, hn, List.find?, hf, Ne.symm h, h]
    · by_cases hn' : s.name = n'
      · simp [updateFirst, hn, List.find?, hn', h]
      · simp [updateFirst, hn, List.find?, hn', ih]

theorem stepStatusOf_updateStepMeta_self (m : RunMeta) (n : String) (s : StepStatus)
    (a : Option String) (t : String) (hs : m.steps.any (·.name = n) = true) :
    stepStatusOf (updateStepMeta m n s a t) n = some s := by
  unfold stepStatusOf updateStepMeta
  rw [show (updateFirst (stepUpdater s a t) m.steps n).find? (·.name = n)
        = (m.steps.find? (·.name = n)).map (stepUpdater s a t) from
      updateFirst_find?_self (stepUpdater s a t) m.steps n (fun _ => rfl)]
  cases hfx : m.steps.find? (fun x => decide (x.name = n)) with
  | none =>
    rcases List.any_eq_true.mp hs with ⟨x, hxm, hxn⟩
    exact absurd hxn (by simpa using List.find?_eq_none.mp hfx x hxm)
  | some x => simp [hfx, stepUpdater]

theorem stepStatusOf_updateStepMeta_ne (m : RunMeta) (n n' : String) (s : StepStatus)
    (a : Option String) (t : String) (h : n' ≠ n) :
    stepStatusOf (updateStepMeta m n s a t) n' = stepStatusOf m n' := by
  unfold stepStatusOf updateStepMeta
  rw [show (updateFirst (stepUpdater s a t) m.steps n).find? (·.name = n')
        = m.steps.find? (·.name = n') from
      updateFirst_find?_ne (stepUpdater s a t) m.steps n n' (fun _ => rfl) h]

theorem stepStatusOf_completeRunMeta (m : RunMeta) (o e : Option String) (t n : String) :
    stepStatusOf (completeRunMeta m o e t) n = stepStatusOf m n := rfl

theorem any_name_eq_map (l : List StepMeta) (n' : String) :
    l.any (·.name = n') = (l.map (·.name)).any (· = n') := by
  induction l with
  | nil => rfl
  | cons x rest ih => simp [List.any, ih]

theorem steps_any_updateStepMeta (m : RunMeta) (n n' : String) (s : StepStatus)
    (a : Option String) (t : String) :
    (updateStepMeta m n s a t).steps.any (·.name = n') = m.steps.any (·.name = n') := by
  unfold updateStepMeta
  have h := updateFirst_names (stepUpdater s a t) m.steps n (fun _ => rfl)
  simp only [any_name_eq_map]
  rw [h]

theorem readMeta_updateStep_eqSome {st : RunsState} {r : String} {m : RunMeta}
    (n : String) (s : StepStatus) (a : Option String) (t : String)
    (h : readMeta st r = some m) (hs : m.steps.any (·.name = n) = true) :
    readMeta (updateStep st r n s a t) r = some (updateStepMeta m n s a t) := by
  rw [updateStep_eq h hs]
  exact readMeta_writeMeta _ (lookupDir_isSome_of_readMeta h)

theorem readMeta_completeRun_eqSome {st : RunsState} {r : String} {m : RunMeta}
    (o e : Option String) (t : String) (h : readMeta st r = some m) :
    readMeta (completeRun st r o e t) r = some (completeRunMeta m o e t) := by
  rw [completeRun_eq h]
  exact readMeta_writeMeta _ (lookupDir_isSome_of_readMeta h)

theorem lookupDir_updateStep_isSome {st : RunsState} {r : String} {n : String}
    {s : StepStatus} {a : Option String} {t : String} {r' : String}
    (h : (lookupDir st r').isSome) : (lookupDir (updateStep st r n s a t) r').isSome := by
  unfold updateStep
  cases hm : readMeta st r with
  | none => exact h
  | some m =>
    by_cases hs : m.steps.any (·.name = n) = true
    · simp only [hs, if_true]
      unfold writeMeta
      cases hd : lookupDir st r with
      | none => exact h
      | some dir =>
        by_cases hr : r' = r
        · subst hr; rw [lookupDir_setDir_self]; simp
        · rw [lookupDir_setDir_ne _ _ _ _ hr]; exact h
    · simp only [Bool.not_eq_true] at hs
      simp only [hs, if_false]
      exact h

theorem readFile_updateStep {st : RunsState} {r n : String} {s : StepStatus}
    {a : Option String} {t : String} {r' f : String} (hf : f ≠ "meta.json") :
    readFile (updateStep st r n s a t) r' f = readFile st r' f := by
  unfold updateStep
  cases hm : readMeta st r with
  | none => rfl
  | some m =>
    by_cases hs : m.steps.any (·.name = n) = true
    · simp only [hs, if_true]
      exact readFile_writeMeta _ hf
    · simp only [Bool.not_eq_true] at hs
      simp [hs]

theorem readFile_completeRun {st : RunsState} {r : String} {o e : Option String}
    {t : String} {r' f : String} (hf : f ≠ "meta.json") :
    readFile (completeRun st r o e t) r' f = readFile st r' f := by
  unfold completeRun
  cases hm : readMeta st r with
  | none => rfl
  | some m => exact readFile_writeMeta _ hf

theorem freshMeta_hasStep (runId now n : String)
    (h : initialSteps.any (·.name = n) = true) :
    (freshMeta runId now).steps.any (·.name = n) = true := h

theorem readCtx_updateStep {st : RunsState} {r n : String} {s : StepStatus}
    {a : Option String} {t r' : String} :
    readCtx (updateStep st r n s a t) r' = readCtx st r' := by
  unfold readCtx
  rw [readFile_updateStep (by decide)]

theorem readCtx_completeRun {st : RunsState} {r : String} {o e : Option String}
    {t r' : String} :
    readCtx (completeRun st r o e t) r' = readCtx st r' := by
  unfold readCtx
  rw [readFile_completeRun (by decide)]

theorem readCtx_writeArtifact_ne {st : RunsState} {r g : String} {d : FileData}
    {r' : String} (h : g ≠ "context.json") :
    readCtx (writeArtifact st r g d) r' = readCtx st r' := by
  unfold readCtx
  rw [readFile_writeArtifact_ne _ (Ne.symm h)]

theorem readCtx_writeArtifact_ctx (st : RunsState) (r : String) (c : CtxArtifact)
    (h : (lookupDir st r).isSome) :
    readCtx (writeArtifact st r "context.json" (.ctxFile c)) r = some c := by
  unfold readCtx
  rw [readFile_writeArtifact_self _ h]
  rfl

theorem truthyOpt_eq_self {o : Option String} (h : o ≠ some "") : truthyOpt o = o := by
  cases o with
  | none => rfl
  | some s =>
    have hs : s ≠ "" := fun hs => h (by rw [hs])
    simp [truthyOpt, truthy, hs]

/-! ## Order facts for the lexicographic sort -/

theorem char_eq_of_toNat_eq {x y : Char} (h : x.val.toNat = y.val.toNat) : x = y :=
  Char.ext (UInt32.ext h)

theorem lexLeCh_total (a b : List Char) : lexLeCh a b = true ∨ lexLeCh b a = true := by
  induction a generalizing b with
  | nil => left; rfl
  | cons x xs ih =>
    cases b with
    | nil => right; rfl
    | cons y ys =>
      by_cases hxy : x = y
      · subst hxy
        simpa [lexLeCh] using ih ys
      · rcases Nat.lt_or_ge x.val.toNat y.val.toNat with hlt | hge
        · left; simp [lexLeCh, hxy, hlt]
        · have hne : y.val.toNat ≠ x.val.toNat := fun hEq => hxy (char_eq_of_toNat_eq hEq.symm)
          have hlt : y.val.toNat < x.val.toNat := lt_of_le_of_ne hge hne
          right; simp [lexLeCh, Ne.symm hxy, hlt]

theorem lexLeCh_trans (a b c : List Char) (h1 : lexLeCh a b = true)
    (h2 : lexLeCh b c = true) : lexLeCh a c = true := by
  induction a generalizing b c with
  | nil => rfl
  | cons x xs ih =>
    cases b with
    | nil => simp [lexLeCh] at h1
    | cons y ys =>
      cases c with
      | nil => simp [lexLeCh] at h2
      | cons z zs =>
        by_cases hxy : x = y
        · subst hxy
          by_cases hyz : x = z
          · subst hyz
            simp only [lexLeCh, if_pos rfl] at h1 h2 ⊢
            exact ih ys zs h1 h2
          · simpa [lexLeCh, hyz] using (by simpa [lexLeCh, hyz] using h2 : x.val.toNat < z.val.toNat)
        · by_cases hyz : y = z
          · subst hyz
            simpa [lexLeCh, hxy] using (by simpa [lexLeCh, hxy] using h1 : x.val.toNat < y.val.toNat)
          · have hxyn : x.val.toNat < y.val.toNat := by simpa [lexLeCh, hxy] using h1
            have hyzn : y.val.toNat < z.val.toNat := by simpa [lexLeCh, hyz] using h2
            by_cases hxz : x = z
            · subst hxz
              exact absurd (Nat.lt_trans hxyn hyzn) (lt_irrefl _)
            · simp [lexLeCh, hxz, Nat.lt_trans hxyn hyzn]

instance : IsTotal String strLeP :=
  ⟨fun a b => by unfold strLeP strLe; exact lexLeCh_total _ _⟩

instance : IsTrans String strLeP :=
  ⟨fun a b c => by unfold strLeP strLe; exact lexLeCh_trans _ _ _⟩

/-! ## Claim C1 -/

/-- C1 (counterexample): the claim states that `updateStep` only applies
legal successors of the step state machine and in particular never moves a
`completed` step back to `running`.  On the code, completing the `context`
step and then calling `updateStep` with `running` moves it straight back to
`running`. -/
theorem updateStep_terminal_reentered :
    stepStatus (updateStep (createRun [] "r1" "t0").1 "r1" "context" .completed none "t1")
        "r1" "context" = some .completed ∧
    stepStatus (updateStep (updateStep (createRun [] "r1" "t0").1 "r1" "context" .completed none "t1")
        "r1" "context" .running none "t2") "r1" "context" = some .running := by
  decide

/-- C1 (amended): `updateStep` performs no successor validation at all: on
any run and step it can find, it unconditionally overwrites the step's
status with the requested one (stamping `startedAt` on `running` and
`completedAt` on terminal statuses); it is a no-op only when the run record
or the step name is unknown. -/
theorem updateStep_no_validation (st : RunsState) (r n : String) (s : StepStatus)
    (a : Option String) (t : String) (m : RunMeta)
    (h : readMeta st r = some m) (hs : m.steps.any (·.name = n) = true) :
    stepStatus (updateStep st r n s a t) r n = some s := by
  rw [updateStep_eq h hs]
  unfold stepStatus
  rw [readMeta_writeMeta _ (lookupDir_isSome_of_readMeta h)]
  simpa using stepStatusOf_updateStepMeta_self m n s a t hs

/-- Witness for C1 (amended) at a concrete state. -/
theorem updateStep_no_validation_witness :
    stepStatus (updateStep (createRun [] "r1" "t0").1 "r1" "context" .running none "t1")
        "r1" "context" = some .running :=
  updateStep_no_validation (createRun [] "r1" "t0").1 "r1" "context" .running none "t1"
    (freshMeta "r1" "t0") (by decide) (by decide)

/-! ## Claim C2 -/

/-- C2 (counterexample): after `complete` with an error followed by
`complete` with only an `echoId`, the record still carries the first call's
error (the last call's absent `error` did not win) while the status has
flipped to `completed`. -/
theorem completeRun_stale_error_persists :
    runError (completeRun (completeRun (createRun [] "r1" "t0").1 "r1" none (some "boom") "t1")
        "r1" (some "echo-1") none "t2") "r1" = some (some "boom") ∧
    runStatus (completeRun (completeRun (createRun [] "r1" "t0").1 "r1" none (some "boom") "t1")
        "r1" (some "echo-1") none "t2") "r1" = some .completed := by
  decide

/-- C2 (amended): repeated `complete` calls keep a single status and a
single `completedAt` (the last call's); the status is `failed` exactly when
the last call carried a truthy error; but a call's `error`/`echoId`
overwrite the stored values only when truthy — fields absent from the last
call retain the values of earlier calls (so an earlier error message can
survive on a run whose final status is `completed`). -/
theorem completeRun_lastPresentWins (st : RunsState) (r : String)
    (o1 e1 o2 e2 : Option String) (t1 t2 : String) (m : RunMeta)
    (h : readMeta st r = some m) :
    runStatus (completeRun (completeRun st r o1 e1 t1) r o2 e2 t2) r
        = some (if truthy e2 then .failed else .completed) ∧
    runCompletedAt (completeRun (completeRun st r o1 e1 t1) r o2 e2 t2) r = some (some t2) ∧
    runError (completeRun (completeRun st r o1 e1 t1) r o2 e2 t2) r
        = some (if truthy e2 then e2 else if truthy e1 then e1 else m.error) ∧
    runEchoId (completeRun (completeRun st r o1 e1 t1) r o2 e2 t2) r
        = some (if truthy o2 then o2 else if truthy o1 then o1 else m.echoId) := by
  have h1 : readMeta (completeRun st r o1 e1 t1) r = some (completeRunMeta m o1 e1 t1) := by
    rw [completeRun_eq h]
    exact readMeta_writeMeta _ (lookupDir_isSome_of_readMeta h)
  have h2 : readMeta (completeRun (completeRun st r o1 e1 t1) r o2 e2 t2) r
      = some (completeRunMeta (completeRunMeta m o1 e1 t1) o2 e2 t2) := by
    rw [completeRun_eq h1]
    exact readMeta_writeMeta _ (lookupDir_isSome_of_readMeta h1)
  refine ⟨?_, ?_, ?_, ?_⟩ <;>
    simp [runStatus, runCompletedAt, runError, runEchoId, h2, completeRunMeta]

/-- Witness for C2 (amended) at a concrete state. -/
theorem completeRun_lastPresentWins_witness :
    runStatus (completeRun (completeRun (createRun [] "r1" "t0").1 "r1" (some "e0") none "t1")
        "r1" none (some "late") "t2") "r1" = some .failed ∧
    runCompletedAt (completeRun (completeRun (createRun [] "r1" "t0").1 "r1" (some "e0") none "t1")
        "r1" none (some "late") "t2") "r1" = some (some "t2") ∧
    runError (completeRun (completeRun (createRun [] "r1" "t0").1 "r1" (some "e0") none "t1")
        "r1" none (some "late") "t2") "r1" = some (some "late") ∧
    runEchoId (completeRun (completeRun (createRun [] "r1" "t0").1 "r1" (some "e0") none "t1")
        "r1" none (some "late") "t2") "r1" = some (some "e0") :=
  completeRun_lastPresentWins (createRun [] "r1" "t0").1 "r1" (some "e0") none none
    (some "late") "t1" "t2" (freshMeta "r1" "t0") (by decide)

/-! ## Claim C3 -/

/-- C3: the claim states the background poll loop never leaves the
`webset` step `running` — non-success responses are supposed to be
swallowed and retried.  On the code, a single non-ok response makes the
`poll` callback return without re-arming the timer and without touching the
step, so the step stays `running` forever even though further attempts (and
a successful one) were still available; an exception on the other hand is
swallowed and the next attempt completes the step. -/
theorem pollLoop_notOk_aborts :
    stepStatus (pollLoop (updateStep (createRun [] "r1" "t0").1 "r1" "webset" .running none "t0")
        "r1" [.notOk, .okData "d"] 0 (fun n => toString n)) "r1" "webset" = some .running ∧
    stepStatus (pollLoop (updateStep (createRun [] "r1" "t0").1 "r1" "webset" .running none "t0")
        "r1" [.fetchFault, .okData "d"] 0 (fun n => toString n)) "r1" "webset" = some .completed := by
  decide

/-! ## Claim C4 -/

/-- C4 (counterexample): the claim states that `create` on an existing
`runId` fails with `DuplicateRun` and leaves the record unchanged.  On the
code, `createRun` has no failure path: a second `createRun` on the same id
succeeds and replaces the record (its `startedAt` moves from `"t0"` to
`"t1"`), though artifact files in the directory survive. -/
theorem createRun_duplicate_not_rejected :
    (readMeta ((createRun ((createRun [] "r1" "t0").1) "r1" "t1").1) "r1").map (·.startedAt)
        = some "t1" ∧
    (readMeta ((createRun [] "r1" "t0").1) "r1").map (·.startedAt) = some "t0" ∧
    readFile ((createRun (writeArtifact (createRun [] "r1" "t0").1 "r1" "context.json"
        (.textFile "x")) "r1" "t1").1) "r1" "context.json" = some (.textFile "x") := by
  decide

/-- C4 (amended): `createRun` never fails: for every `runId` (fresh or
already present) it (re)initializes `meta.json` with every step `pending`,
status `running` and `startedAt = now`, returns that record, and a
subsequent read returns exactly it; files other than `meta.json` in the run
directory are left untouched. -/
theorem createRun_reinitializes (st : RunsState) (r now : String) :
    readMeta (createRun st r now).1 r = some (freshMeta r now) ∧
    (createRun st r now).2 = freshMeta r now ∧
    ∀ f : String, f ≠ "meta.json" → readFile (createRun st r now).1 r f = readFile st r f :=
  ⟨readMeta_createRun st r now, rfl, fun _ hf => readFile_createRun hf⟩

/-- Witness for C4 (amended) at a concrete state. -/
theorem createRun_reinitializes_witness :
    readMeta (createRun (writeArtifact (createRun [] "r1" "t0").1 "r1" "a.txt"
        (.textFile "x")) "r1" "t1").1 "r1" = some (freshMeta "r1" "t1") ∧
    (createRun (writeArtifact (createRun [] "r1" "t0").1 "r1" "a.txt"
        (.textFile "x")) "r1" "t1").2 = freshMeta "r1" "t1" ∧
    readFile (createRun (writeArtifact (createRun [] "r1" "t0").1 "r1" "a.txt"
        (.textFile "x")) "r1" "t1").1 "r1" "a.txt"
      = readFile (writeArtifact (createRun [] "r1" "t0").1 "r1" "a.txt" (.textFile "x")) "r1" "a.txt" :=
  ⟨(createRun_reinitializes _ "r1" "t1").1,
   (createRun_reinitializes _ "r1" "t1").2.1,
   (createRun_reinitializes _ "r1" "t1").2.2 "a.txt" (by decide)⟩

/-! ## Claim C9 -/

/-- C9: `listArtifacts` returns exactly the names of the files stored in
the run's directory (a permutation of them), in lexicographically sorted
order, and the empty sequence when the run's directory does not exist. -/
theorem listArtifacts_sorted_complete (st : RunsState) (r : String) :
    (lookupDir st r = none → listArtifacts st r = []) ∧
    (∀ dir, lookupDir st r = some dir →
      (listArtifacts st r).Perm (dir.map (·.1)) ∧ (listArtifacts st r).Sorted strLeP) := by
  constructor
  · intro h
    simp [listArtifacts, h]
  · intro dir h
    refine ⟨?_, ?_⟩
    · simp only [listArtifacts, h]
      exact List.perm_insertionSort _ _
    · simp only [listArtifacts, h]
      exact List.sorted_insertionSort _ _

/-- Witness for C9: the missing-directory case on the empty state and the
sorted/complete case on a two-file run directory. -/
theorem listArtifacts_sorted_complete_witness :
    listArtifacts [] "r1" = [] ∧
    ((listArtifacts (writeArtifact (createRun [] "r1" "t0").1 "r1" "context.json" (.textFile "x")) "r1").Perm
        (c9Dir.map (·.1)) ∧
      (listArtifacts (writeArtifact (createRun [] "r1" "t0").1 "r1" "context.json" (.textFile "x")) "r1").Sorted strLeP) :=
  ⟨(listArtifacts_sorted_complete [] "r1").1 (by decide),
   (listArtifacts_sorted_complete
      (writeArtifact (createRun [] "r1" "t0").1 "r1" "context.json" (.textFile "x")) "r1").2
      c9Dir (by decide)⟩

/-! ## Claim C7 -/

theorem truthy_some_of_ne {s : String} (h : s ≠ "") : truthy (some s) = true := by
  simp [truthy, h]

theorem engine_err_ne_empty (code : Nat) (text : String) :
    ("Engine returned " ++ toString code ++ ": " ++ text) ≠ "" := by
  intro hcontra
  have hlen := congrArg String.length hcontra
  simp [String.length_append] at hlen
  exact absurd hlen.1.1.1 (by decide)

theorem stepStatusOf_freshMeta (runId now n : String) :
    stepStatusOf (freshMeta runId now) n
      = (initialSteps.find? (·.name = n)).map (·.status) := rfl

/-- C7: when the engine call returns a non-success response, the handler
marks the `sources` step `failed`, records the error through `complete`
(the run's status becomes `failed` with the error message), returns a
failure result, and does not proceed: the `compose`, `store` and `record`
steps are never marked `completed` — they stay `pending`. -/
theorem engineFailure_stops_pipeline (env : EnvKeys) (args : EchoArgs)
    (runId now : String) (st : RunsState) (code : Nat) (text : String)
    (hk : (truthy env.loretechKey && truthy env.openrouterKey && truthy env.exaKey) = true) :
    (loretoolEcho env args { engine := .notOk code text } runId now st).1
        = .errorResult ("Echo creation failed (" ++ toString code ++ "): " ++ text) ∧
    runStatus (loretoolEcho env args { engine := .notOk code text } runId now st).2 runId
        = some .failed ∧
    runError (loretoolEcho env args { engine := .notOk code text } runId now st).2 runId
        = some (some ("Engine returned " ++ toString code ++ ": " ++ text)) ∧
    stepStatus (loretoolEcho env args { engine := .notOk code text } runId now st).2 runId "sources"
        = some .failed ∧
    stepStatus (loretoolEcho env args { engine := .notOk code text } runId now st).2 runId "compose"
        = some .pending ∧
    stepStatus (loretoolEcho env args { engine := .notOk code text } runId now st).2 runId "store"
        = some .pending ∧
    stepStatus (loretoolEcho env args { engine := .notOk code text } runId now st).2 runId "record"
        = some .pending := by
  have hred : loretoolEcho env args { engine := .notOk code text } runId now st
      = (.errorResult ("Echo creation failed (" ++ toString code ++ "): " ++ text),
         completeRun (updateStep (updateStep (updateStep (writeArtifact
           (updateStep (createRun st runId now).1 runId "context" .running none now)
           runId "context.json" (.ctxFile (ctxOfArgs args)))
           runId "context" .completed (some "context.json") now)
           runId "sources" .running none now)
           runId "sources" .failed none now)
           runId none (some ("Engine returned " ++ toString code ++ ": " ++ text)) now) := by
    simp [loretoolEcho, hk]
  rw [hred]
  have h1 : readMeta (updateStep (createRun st runId now).1 runId "context" .running none now) runId
      = some (updateStepMeta (freshMeta runId now) "context" .running none now) :=
    readMeta_updateStep_eqSome "context" .running none now (readMeta_createRun st runId now)
      (freshMeta_hasStep _ _ _ (by decide))
  have h2 : readMeta (writeArtifact
      (updateStep (createRun st runId now).1 runId "context" .running none now)
      runId "context.json" (.ctxFile (ctxOfArgs args))) runId
      = some (updateStepMeta (freshMeta runId now) "context" .running none now) := by
    rw [readMeta_writeArtifact _ (by decide)]
    exact h1
  have hs2 : (updateStepMeta (freshMeta runId now) "context" .running none now).steps.any
      (·.name = "context") = true := by
    rw [steps_any_updateStepMeta]
    exact freshMeta_hasStep _ _ _ (by decide)
  have h3 := readMeta_updateStep_eqSome "context" .completed (some "context.json") now h2 hs2
  have hs3 : (updateStepMeta (updateStepMeta (freshMeta runId now) "context" .running none now)
      "context" .completed (some "context.json") now).steps.any (·.name = "sources") = true := by
    rw [steps_any_updateStepMeta, steps_any_updateStepMeta]
    exact freshMeta_hasStep _ _ _ (by decide)
  have h4 := readMeta_updateStep_eqSome "sources" .running none now h3 hs3
  have hs4 : (updateStepMeta (updateStepMeta (updateStepMeta (freshMeta runId now)
      "context" .running none now) "context" .completed (some "context.json") now)
      "sources" .running none now).steps.any (·.name = "sources") = true := by
    rw [steps_any_updateStepMeta, steps_any_updateStepMeta, steps_any_updateStepMeta]
    exact freshMeta_hasStep _ _ _ (by decide)
  have h5 := readMeta_updateStep_eqSome "sources" .failed none now h4 hs4
  have h6 := readMeta_completeRun_eqSome none
    (some ("Engine returned " ++ toString code ++ ": " ++ text)) now h5
  have herr := engine_err_ne_empty code text
  refine ⟨rfl, ?_, ?_, ?_, ?_, ?_, ?_⟩
  · simp [runStatus, h6, completeRunMeta, truthy_some_of_ne herr]
  · simp [runError, h6, completeRunMeta, truthy_some_of_ne herr]
  · simp only [stepStatus, h6, Option.some_bind]
    rw [stepStatusOf_completeRunMeta]
    exact stepStatusOf_updateStepMeta_self _ _ _ _ _ hs4
  · simp only [stepStatus, h6, Option.some_bind]
    rw [stepStatusOf_completeRunMeta,
        stepStatusOf_updateStepMeta_ne _ _ _ _ _ _ (by decide),
        stepStatusOf_updateStepMeta_ne _ _ _ _ _ _ (by decide),
        stepStatusOf_updateStepMeta_ne _ _ _ _ _ _ (by decide),
        stepStatusOf_updateStepMeta_ne _ _ _ _ _ _ (by decide),
        stepStatusOf_freshMeta]
    decide
  · simp only [stepStatus, h6, Option.some_bind]
    rw [stepStatusOf_completeRunMeta,
        stepStatusOf_updateStepMeta_ne _ _ _ _ _ _ (by decide),
        stepStatusOf_updateStepMeta_ne _ _ _ _ _ _ (by decide),
        stepStatusOf_updateStepMeta_ne _ _ _ _ _ _ (by decide),
        stepStatusOf_updateStepMeta_ne _ _ _ _ _ _ (by decide),
        stepStatusOf_freshMeta]
    decide
  · simp only [stepStatus, h6, Option.some_bind]
    rw [stepStatusOf_completeRunMeta,
        stepStatusOf_updateStepMeta_ne _ _ _ _ _ _ (by decide),
        stepStatusOf_updateStepMeta_ne _ _ _ _ _ _ (by decide),
        stepStatusOf_updateStepMeta_ne _ _ _ _ _ _ (by decide),
        stepStatusOf_updateStepMeta_ne _ _ _ _ _ _ (by decide),
        stepStatusOf_freshMeta]
    decide

/-- Witness for C7 at a concrete environment, input and state. -/
theorem engineFailure_stops_pipeline_witness :
    (loretoolEcho { loretechKey := some "k", openrouterKey := some "o", exaKey := some "x" }
        { context := "c", depth := "standard" } { engine := .notOk 500 "boom" } "r1" "t0" []).1
        = .errorResult ("Echo creation failed (" ++ toString 500 ++ "): " ++ "boom") ∧
    runStatus (loretoolEcho { loretechKey := some "k", openrouterKey := some "o", exaKey := some "x" }
        { context := "c", depth := "standard" } { engine := .notOk 500 "boom" } "r1" "t0" []).2 "r1"
        = some .failed ∧
    runError (loretoolEcho { loretechKey := some "k", openrouterKey := some "o", exaKey := some "x" }
        { context := "c", depth := "standard" } { engine := .notOk 500 "boom" } "r1" "t0" []).2 "r1"
        = some (some ("Engine returned " ++ toString 500 ++ ": " ++ "boom")) ∧
    stepStatus (loretoolEcho { loretechKey := some "k", openrouterKey := some "o", exaKey := some "x" }
        { context := "c", depth := "standard" } { engine := .notOk 500 "boom" } "r1" "t0" []).2 "r1" "sources"
        = some .failed ∧
    stepStatus (loretoolEcho { loretechKey := some "k", openrouterKey := some "o", exaKey := some "x" }
        { context := "c", depth := "standard" } { engine := .notOk 500 "boom" } "r1" "t0" []).2 "r1" "compose"
        = some .pending ∧
    stepStatus (loretoolEcho { loretechKey := some "k", openrouterKey := some "o", exaKey := some "x" }
        { context := "c", depth := "standard" } { engine := .notOk 500 "boom" } "r1" "t0" []).2 "r1" "store"
        = some .pending ∧
    stepStatus (loretoolEcho { loretechKey := some "k", openrouterKey := some "o", exaKey := some "x" }
        { context := "c", depth := "standard" } { engine := .notOk 500 "boom" } "r1" "t0" []).2 "r1" "record"
        = some .pending :=
  engineFailure_stops_pipeline
    { loretechKey := some "k", openrouterKey := some "o", exaKey := some "x" }
    { context := "c", depth := "standard" } "r1" "t0" [] 500 "boom" (by decide)

/-! ## Claim C6 -/

/-- C6 (counterexample): the claim states the echo-creation handler never
throws, for exceptions raised in any pipeline step including step 1
(context capture).  On the code, context capture runs before the `try`
block: a file-system exception while writing `context.json` escapes the
handler, and the run is left `running` with no recorded error. -/
theorem echoHandler_throws_in_step1 :
    isThrown (loretoolEcho { loretechKey := some "k", openrouterKey := some "o", exaKey := some "x" }
        { context := "c", depth := "standard" }
        { contextFault := some "ENOSPC: no space left on device", engine := .notOk 500 "x" }
        "r1" "t0" []).1 = true ∧
    (loretoolEcho { loretechKey := some "k", openrouterKey := some "o", exaKey := some "x" }
        { context := "c", depth := "standard" }
        { contextFault := some "ENOSPC: no space left on device", engine := .notOk 500 "x" }
        "r1" "t0" []).1 = .thrown "ENOSPC: no space left on device" ∧
    runStatus (loretoolEcho { loretechKey := some "k", openrouterKey := some "o", exaKey := some "x" }
        { context := "c", depth := "standard" }
        { contextFault := some "ENOSPC: no space left on device", engine := .notOk 500 "x" }
        "r1" "t0" []).2 "r1" = some .running ∧
    runError (loretoolEcho { loretechKey := some "k", openrouterKey := some "o", exaKey := some "x" }
        { context := "c", depth := "standard" }
        { contextFault := some "ENOSPC: no space left on device", engine := .notOk 500 "x" }
        "r1" "t0" []).2 "r1" = some none := by
  decide

/-- C6 (amended): once the context-capture stage has not itself thrown
(that part of the handler runs before the `try` block), the handler never
throws: every behaviour of the engine and of the storage layer inside the
`try` block yields a structured success or error result, and an engine-call
exception with a nonempty message is caught and recorded on the run via
`complete` (run status `failed`, error equal to the message). -/
theorem echoHandler_noThrow_insideTry (env : EnvKeys) (args : EchoArgs)
    (oracle : EchoOracle) (runId now : String) (st : RunsState)
    (hc : oracle.contextFault = none) :
    isThrown (loretoolEcho env args oracle runId now st).1 = false ∧
    ((truthy env.loretechKey && truthy env.openrouterKey && truthy env.exaKey) = true →
      truthy (engineFaultMsg oracle.engine) = true →
      runStatus (loretoolEcho env args oracle runId now st).2 runId = some .failed ∧
      runError (loretoolEcho env args oracle runId now st).2 runId
        = some (engineFaultMsg oracle.engine)) := by
  obtain ⟨cf, eng, pf⟩ := oracle
  simp only at hc
  subst hc
  constructor
  · by_cases hk : (truthy env.loretechKey && truthy env.openrouterKey && truthy env.exaKey) = true
    · cases eng with
      | fault msg => simp [loretoolEcho, hk, isThrown]
      | notOk code text => simp [loretoolEcho, hk, isThrown]
      | ok d =>
        cases pf with
        | none =>
          by_cases hw : truthy d.websetId = true
          · simp [loretoolEcho, hk, hw, isThrown]
          · simp only [Bool.not_eq_true] at hw
            simp [loretoolEcho, hk, hw, isThrown]
        | some m => simp [loretoolEcho, hk, isThrown]
    · simp only [Bool.not_eq_true] at hk
      simp [loretoolEcho, hk, isThrown]
  · intro hk hf
    cases eng with
    | notOk code text => simp [engineFaultMsg, truthy] at hf
    | ok d => simp [engineFaultMsg, truthy] at hf
    | fault msg =>
      simp only [engineFaultMsg] at hf ⊢
      have hred : loretoolEcho env args { contextFault := none, engine := .fault msg, postEngineFault := pf } runId now st
          = (.errorResult ("Echo creation failed: " ++ msg),
             completeRun (updateStep (updateStep (writeArtifact
               (updateStep (createRun st runId now).1 runId "context" .running none now)
               runId "context.json" (.ctxFile (ctxOfArgs args)))
               runId "context" .completed (some "context.json") now)
               runId "sources" .running none now)
               runId none (some msg) now) := by
        simp [loretoolEcho, hk]
      rw [hred]
      have h1 : readMeta (updateStep (createRun st runId now).1 runId "context" .running none now) runId
          = some (updateStepMeta (freshMeta runId now) "context" .running none now) :=
        readMeta_updateStep_eqSome "context" .running none now (readMeta_createRun st runId now)
          (freshMeta_hasStep _ _ _ (by decide))
      have h2 : readMeta (writeArtifact
          (updateStep (createRun st runId now).1 runId "context" .running none now)
          runId "context.json" (.ctxFile (ctxOfArgs args))) runId
          = some (updateStepMeta (freshMeta runId now) "context" .running none now) := by
        rw [readMeta_writeArtifact _ (by decide)]
        exact h1
      have hs2 : (updateStepMeta (freshMeta runId now) "context" .running none now).steps.any
          (·.name = "context") = true := by
        rw [steps_any_updateStepMeta]
        exact freshMeta_hasStep _ _ _ (by decide)
      have h3 := readMeta_updateStep_eqSome "context" .completed (some "context.json") now h2 hs2
      have hs3 : (updateStepMeta (updateStepMeta (freshMeta runId now) "context" .running none now)
          "context" .completed (some "context.json") now).steps.any (·.name = "sources") = true := by
        rw [steps_any_updateStepMeta, steps_any_updateStepMeta]
        exact freshMeta_hasStep _ _ _ (by decide)
      have h4 := readMeta_updateStep_eqSome "sources" .running none now h3 hs3
      have h5 := readMeta_completeRun_eqSome none (some msg) now h4
      constructor
      · simp [runStatus, h5, completeRunMeta, hf]
      · simp [runError, h5, completeRunMeta, hf]

/-- Witness for C6 (amended): a concrete engine-call exception is caught
and recorded while the handler returns a structured error result. -/
theorem echoHandler_noThrow_insideTry_witness :
    isThrown (loretoolEcho { loretechKey := some "k", openrouterKey := some "o", exaKey := some "x" }
        { context := "c", depth := "standard" } { engine := .fault "fetch failed" } "r1" "t0" []).1 = false ∧
    runStatus (loretoolEcho { loretechKey := some "k", openrouterKey := some "o", exaKey := some "x" }
        { context := "c", depth := "standard" } { engine := .fault "fetch failed" } "r1" "t0" []).2 "r1"
        = some .failed ∧
    runError (loretoolEcho { loretechKey := some "k", openrouterKey := some "o", exaKey := some "x" }
        { context := "c", depth := "standard" } { engine := .fault "fetch failed" } "r1" "t0" []).2 "r1"
        = some (engineFaultMsg (.fault "fetch failed")) :=
  ⟨(echoHandler_noThrow_insideTry
      { loretechKey := some "k", openrouterKey := some "o", exaKey := some "x" }
      { context := "c", depth := "standard" } { engine := .fault "fetch failed" } "r1" "t0" [] rfl).1,
   ((echoHandler_noThrow_insideTry
      { loretechKey := some "k", openrouterKey := some "o", exaKey := some "x" }
      { context := "c", depth := "standard" } { engine := .fault "fetch failed" } "r1" "t0" [] rfl).2
      (by decide) (by decide)).1,
   ((echoHandler_noThrow_insideTry
      { loretechKey := some "k", openrouterKey := some "o", exaKey := some "x" }
      { context := "c", depth := "standard" } { engine := .fault "fetch failed" } "r1" "t0" [] rfl).2
      (by decide) (by decide)).2⟩

/-! ## Claim C8 -/

/-- C8: replay derives the new run's effective engine input with every
auxiliary field (`depth`, `focus`, `intent`, `signals`, `scope`, `source`)
taken verbatim from the source run's stored context artifact; the primary
content field is replaced only when replaying from the earliest step
(`"context"`) with a truthy override, and is otherwise the original
content; and the new run's context artifact carries the derived content,
`depth` and `focus` plus the traceability fields naming the source run and
step, and is what a read of the new run's `context.json` returns (whatever
the engine then does). -/
theorem rerun_input_derivation (env : EnvKeys) (srcRunId fromStep : String)
    (override : Option String) (eng : EngineOutcome) (newRunId now : String)
    (st : RunsState) (m0 : RunMeta) (orig : CtxArtifact)
    (hm : readMeta st srcRunId = some m0) (hc : readCtx st srcRunId = some orig)
    (hk : (truthy env.loretechKey && truthy env.openrouterKey && truthy env.exaKey) = true)
    (hfo : orig.focus ≠ some "") (hin : orig.intent ≠ some "")
    (hsg : orig.signals ≠ some "") (hsc : orig.scope ≠ some "")
    (hsr : orig.source ≠ some "") :
    (rerunDerive orig fromStep override srcRunId).1.depth = orig.depth ∧
    (rerunDerive orig fromStep override srcRunId).1.focus = orig.focus ∧
    (rerunDerive orig fromStep override srcRunId).1.intent = orig.intent ∧
    (rerunDerive orig fromStep override srcRunId).1.signals = orig.signals ∧
    (rerunDerive orig fromStep override srcRunId).1.scope = orig.scope ∧
    (rerunDerive orig fromStep override srcRunId).1.source = orig.source ∧
    (fromStep = "context" ∧ truthy override = true →
      (rerunDerive orig fromStep override srcRunId).1.context = override.getD "") ∧
    (¬ (fromStep = "context" ∧ truthy override = true) →
      (rerunDerive orig fromStep override srcRunId).1.context = orig.context) ∧
    (rerunDerive orig fromStep override srcRunId).2.context
        = (rerunDerive orig fromStep override srcRunId).1.context ∧
    (rerunDerive orig fromStep override srcRunId).2.depth = orig.depth ∧
    (rerunDerive orig fromStep override srcRunId).2.focus = orig.focus ∧
    (rerunDerive orig fromStep override srcRunId).2.replayedFrom = some srcRunId ∧
    (rerunDerive orig fromStep override srcRunId).2.replayedStep = some fromStep ∧
    readCtx (loretoolRerun env srcRunId fromStep override eng newRunId now st).2 newRunId
        = some (rerunDerive orig fromStep override srcRunId).2 := by
  have hIsSome : (lookupDir (updateStep (createRun st newRunId now).1 newRunId
      "context" .running none now) newRunId).isSome :=
    lookupDir_updateStep_isSome (lookupDir_createRun_isSome st newRunId now)
  refine ⟨rfl, truthyOpt_eq_self hfo, truthyOpt_eq_self hin, truthyOpt_eq_self hsg,
    truthyOpt_eq_self hsc, truthyOpt_eq_self hsr, ?_, ?_, rfl, rfl, rfl, rfl, rfl, ?_⟩
  · intro h
    simp only [rerunDerive, if_pos h]
  · intro h
    simp only [rerunDerive, if_neg h]
  · cases eng with
    | fault msg =>
      simp only [loretoolRerun, hm, hc, hk, Bool.not_true, Bool.false_eq_true, if_false]
      rw [readCtx_completeRun, readCtx_updateStep, readCtx_updateStep,
        readCtx_writeArtifact_ctx _ _ _ hIsSome]
    | notOk code text =>
      simp only [loretoolRerun, hm, hc, hk, Bool.not_true, Bool.false_eq_true, if_false]
      rw [readCtx_completeRun, readCtx_updateStep, readCtx_updateStep, readCtx_updateStep,
        readCtx_writeArtifact_ctx _ _ _ hIsSome]
    | ok d =>
      simp only [loretoolRerun, hm, hc, hk, Bool.not_true, Bool.false_eq_true, if_false]
      rw [readCtx_completeRun, readCtx_updateStep, readCtx_updateStep, readCtx_updateStep,
        readCtx_updateStep, readCtx_updateStep,
        readCtx_writeArtifact_ne (by decide), readCtx_updateStep, readCtx_updateStep,
        readCtx_writeArtifact_ne (by decide), readCtx_updateStep, readCtx_updateStep,
        readCtx_writeArtifact_ctx _ _ _ hIsSome]

/-- The source-run state used by the C8 witness: a run `rS` whose stored
context artifact is `content "A"`, `depth "standard"`, `focus "academic"`. -/
def c8SrcState : RunsState :=
  writeArtifact (createRun [] "rS" "t0").1 "rS" "context.json"
    (.ctxFile { context := "A", depth := "standard", focus := some "academic" })

/-- The stored source artifact of the C8 witness. -/
def c8Orig : CtxArtifact := { context := "A", depth := "standard", focus := some "academic" }

/-- Witness for C8: replaying run `rS` from `"context"` with override
`"B"`. -/
theorem rerun_input_derivation_witness :
    (rerunDerive c8Orig "context" (some "B") "rS").1.depth = c8Orig.depth ∧
    (rerunDerive c8Orig "context" (some "B") "rS").1.focus = c8Orig.focus ∧
    (rerunDerive c8Orig "context" (some "B") "rS").1.intent = c8Orig.intent ∧
    (rerunDerive c8Orig "context" (some "B") "rS").1.signals = c8Orig.signals ∧
    (rerunDerive c8Orig "context" (some "B") "rS").1.scope = c8Orig.scope ∧
    (rerunDerive c8Orig "context" (some "B") "rS").1.source = c8Orig.source ∧
    ("context" = "context" ∧ truthy (some "B") = true →
      (rerunDerive c8Orig "context" (some "B") "rS").1.context = (some "B").getD "") ∧
    (¬ ("context" = "context" ∧ truthy (some "B") = true) →
      (rerunDerive c8Orig "context" (some "B") "rS").1.context = c8Orig.context) ∧
    (rerunDerive c8Orig "context" (some "B") "rS").2.context
        = (rerunDerive c8Orig "context" (some "B") "rS").1.context ∧
    (rerunDerive c8Orig "context" (some "B") "rS").2.depth = c8Orig.depth ∧
    (rerunDerive c8Orig "context" (some "B") "rS").2.focus = c8Orig.focus ∧
    (rerunDerive c8Orig "context" (some "B") "rS").2.replayedFrom = some "rS" ∧
    (rerunDerive c8Orig "context" (some "B") "rS").2.replayedStep = some "context" ∧
    readCtx (loretoolRerun { loretechKey := some "k", openrouterKey := some "o", exaKey := some "x" }
        "rS" "context" (some "B") (.notOk 500 "boom") "rN" "t1" c8SrcState).2 "rN"
        = some (rerunDerive c8Orig "context" (some "B") "rS").2 :=
  rerun_input_derivation
    { loretechKey := some "k", openrouterKey := some "o", exaKey := some "x" }
    "rS" "context" (some "B") (.notOk 500 "boom") "rN" "t1" c8SrcState
    (freshMeta "rS" "t0") c8Orig (by decide) (by decide) (by decide)
    (by decide) (by decide) (by decide) (by decide) (by decide)

/-! ## Lemmas for the catalog text model -/

theorem nsplit_ne_nil (s : Chars) : nsplit s ≠ [] := by
  cases s with
  | nil => simp [nsplit]
  | cons c rest =>
    by_cases h : c = '\n'
    · simp [nsplit, h]
    · simp only [nsplit, if_neg h]
      cases hx : nsplit rest with
      | nil => simp
      | cons a t => simp

theorem nsplit_no_nl {l : Chars} (h : '\n' ∉ l) : nsplit l = [l] := by
  induction l with
  | nil => rfl
  | cons c rest ih =>
    simp only [List.mem_cons, not_or] at h
    have hc : ¬ c = '\n' := fun hcc => h.1 hcc.symm
    simp only [nsplit, if_neg hc, ih h.2]

theorem nsplit_append {a : Chars} (b : Chars) (h : '\n' ∉ a) :
    ∃ hd tl, nsplit b = hd :: tl ∧ nsplit (a ++ b) = (a ++ hd) :: tl := by
  induction a with
  | nil =>
    cases hb : nsplit b with
    | nil => exact absurd hb (nsplit_ne_nil b)
    | cons hd tl => exact ⟨hd, tl, rfl, by simpa using hb⟩
  | cons c a' ih =>
    simp only [List.mem_cons, not_or] at h
    have hc : ¬ c = '\n' := fun hcc => h.1 hcc.symm
    rcases ih h.2 with ⟨hd, tl, hb, hab⟩
    refine ⟨hd, tl, hb, ?_⟩
    simp only [List.cons_append, nsplit, if_neg hc, List.append_eq, hab]

theorem nsplit_append_cons {a : Chars} (b : Chars) (h : '\n' ∉ a) :
    nsplit (a ++ '\n' :: b) = a :: nsplit b := by
  rcases nsplit_append ('\n' :: b) h with ⟨hd, tl, hb, hab⟩
  have hnl : nsplit ('\n' :: b) = [] :: nsplit b := by simp [nsplit]
  rw [hnl] at hb
  injection hb with h1 h2
  subst h1
  subst h2
  simpa using hab

theorem nsplit_njoin_append {ls : List Chars} (b : Chars)
    (h : ∀ l ∈ ls, '\n' ∉ l) (hne : ls ≠ []) :
    nsplit (njoin ls ++ '\n' :: b) = ls ++ nsplit b := by
  induction ls with
  | nil => exact absurd rfl hne
  | cons x ls' ih =>
    cases ls' with
    | nil =>
      simp only [njoin]
      rw [nsplit_append_cons b (h x (by simp))]
      simp
    | cons y t =>
      have hx : '\n' ∉ x := h x (by simp)
      show nsplit ((x ++ '\n' :: njoin (y :: t)) ++ '\n' :: b) = (x :: y :: t) ++ nsplit b
      rw [List.append_assoc, List.cons_append,
        nsplit_append_cons (njoin (y :: t) ++ '\n' :: b) hx,
        ih (fun l hl => h l (by simp [hl])) (by simp)]
      rfl

theorem findIdxOpt_append_first {p : Chars → Bool} {xs : List Chars} (z : Chars) (ys : List Chars)
    (hxs : ∀ l ∈ xs, p l = false) (hz : p z = true) :
    findIdxOpt p (xs ++ z :: ys) = some xs.length := by
  induction xs with
  | nil => simp [findIdxOpt, hz]
  | cons x t ih =>
    have hx : p x = false := hxs x (by simp)
    simp [findIdxOpt, hx, ih (fun l hl => hxs l (by simp [hl]))]

theorem isPrefixOf_append_self (a b : Chars) : a.isPrefixOf (a ++ b) = true := by
  induction a with
  | nil => simp [List.isPrefixOf]
  | cons c t ih => simp [List.isPrefixOf, ih]

theorem fmOf_cons (first : Chars) (rest : List Chars) (content : Chars)
    (h : nsplit content = first :: rest) :
    fmOf content
      = if first = "---".toList then
          (match rest with
           | [] => none
           | r0 :: rtail =>
             match findIdxOpt (fun l => ("---".toList).isPrefixOf l) rtail with
             | some k => some (r0 :: rtail.take k)
             | none => none)
        else none := by
  unfold fmOf
  rw [h]

theorem fmOf_mkFile {fm : List Chars} (rest : Chars) (hne : fm ≠ [])
    (hnl : ∀ l ∈ fm, '\n' ∉ l)
    (hd3 : ∀ l ∈ fm, ("---".toList).isPrefixOf l = false) :
    fmOf (mkFile fm rest) = some fm := by
  obtain ⟨f0, ftail, rfl⟩ : ∃ f0 ftail, fm = f0 :: ftail := by
    cases fm with
    | nil => exact absurd rfl hne
    | cons a t => exact ⟨a, t, rfl⟩
  have hls : ∀ l ∈ ("---".toList :: f0 :: ftail), '\n' ∉ l := by
    intro l hl
    rcases List.mem_cons.mp hl with h | h
    · subst h; decide
    · exact hnl l h
  rcases nsplit_append rest (show '\n' ∉ "---".toList by decide) with ⟨hd, tl, hb, hab⟩
  have hsplit : nsplit (mkFile (f0 :: ftail) rest)
      = "---".toList :: f0 :: (ftail ++ ("---".toList ++ hd) :: tl) := by
    unfold mkFile
    rw [nsplit_njoin_append _ hls (by simp), hab]
    rfl
  have hz : ("---".toList).isPrefixOf ("---".toList ++ hd) = true :=
    isPrefixOf_append_self _ _
  have hidx : findIdxOpt (fun l => ("---".toList).isPrefixOf l)
      (ftail ++ ("---".toList ++ hd) :: tl) = some ftail.length :=
    findIdxOpt_append_first _ _ (fun l hl => hd3 l (List.mem_cons_of_mem _ hl)) hz
  rw [fmOf_cons _ _ _ hsplit, if_pos rfl]
  show (match findIdxOpt (fun l => ("---".toList).isPrefixOf l)
          (ftail ++ ("---".toList ++ hd) :: tl) with
        | some k => some (f0 :: (ftail ++ ("---".toList ++ hd) :: tl).take k)
        | none => none) = some (f0 :: ftail)
  rw [hidx]
  simp only [List.take_left]

theorem head?_mem {l : Chars} {c : Char} (h : l.head? = some c) : c ∈ l := by
  cases l with
  | nil => simp at h
  | cons a t =>
    simp at h
    subst h
    exact List.mem_cons_self a t

theorem getLast?_mem {l : Chars} {c : Char} (h : l.getLast? = some c) : c ∈ l := by
  rcases List.eq_nil_or_concat l with rfl | ⟨t, a, rfl⟩
  · simp at h
  · rw [List.concat_eq_append, List.getLast?_concat] at h
    rw [List.concat_eq_append]
    injection h with h1
    subst h1
    simp

theorem dropWhile_eq_self_of_head {p : Char → Bool} {l : Chars}
    (h : ∀ c ∈ l.head?, p c = false) : l.dropWhile p = l := by
  cases l with
  | nil => rfl
  | cons c t =>
    have hc := h c rfl
    simp [List.dropWhile, hc]

theorem stripQuotes_eq_self {s : Chars} (hq : ∀ c ∈ s, (c == '"') = false) :
    stripQuotes s = s := by
  unfold stripQuotes
  have h1 : ¬ s.head? = some '"' := by
    intro h
    have := hq '"' (head?_mem h)
    simp at this
  rw [if_neg h1]
  have h2 : ¬ s.getLast? = some '"' := by
    intro h
    have := hq '"' (getLast?_mem h)
    simp at this
  rw [if_neg h2]

theorem jsTrim_eq_self {s : Chars}
    (h1 : ∀ c ∈ s.head?, isWs c = false) (h2 : ∀ c ∈ s.getLast?, isWs c = false) :
    jsTrim s = s := by
  unfold jsTrim
  have h2' : ∀ c ∈ s.reverse.head?, isWs c = false := by
    rw [List.head?_reverse]
    exact h2
  rw [dropWhile_eq_self_of_head h1, dropWhile_eq_self_of_head h2', List.reverse_reverse]

theorem capture_space_cons {e : Chars} (hne : e ≠ [])
    (hh : ∀ c ∈ e.head?, isWs c = false) :
    capture (' ' :: e) = e := by
  unfold capture
  have hdw : (' ' :: e).dropWhile isWs = e := by
    rw [List.dropWhile_cons_of_pos (by decide)]
    exact dropWhile_eq_self_of_head hh
  rw [hdw]
  simp [List.isEmpty_eq_false.mpr hne]

theorem cleanFieldB_extract {s : Chars} (h : cleanFieldB s = true) :
    s ≠ [] ∧ '\n' ∉ s ∧ (∀ c ∈ s, isWs c = false) ∧ (∀ c ∈ s, (c == '"') = false) := by
  unfold cleanFieldB at h
  rw [Bool.and_eq_true, List.all_eq_true] at h
  obtain ⟨hne, hall⟩ := h
  refine ⟨?_, ?_, ?_, ?_⟩
  · intro hcontra
    subst hcontra
    simp at hne
  · intro hmem
    have := hall _ hmem
    simp [isWs] at this
  · intro c hmem
    have := hall c hmem
    rw [Bool.and_eq_true, Bool.and_eq_true] at this
    simpa using this.1.1
  · intro c hmem
    have := hall c hmem
    rw [Bool.and_eq_true, Bool.and_eq_true] at this
    simpa using this.1.2

theorem escapeQuotes_append (a b : Chars) :
    escapeQuotes (a ++ b) = escapeQuotes a ++ escapeQuotes b := by
  induction a with
  | nil => rfl
  | cons c t ih => simp [escapeQuotes, ih]

theorem escapeQuotes_no_nl {t : Chars} (h : '\n' ∉ t) : '\n' ∉ escapeQuotes t := by
  induction t with
  | nil => simp [escapeQuotes]
  | cons c r ih =>
    simp only [List.mem_cons, not_or] at h
    intro hmem
    simp only [escapeQuotes, List.mem_append] at hmem
    rcases hmem with hmem | hmem
    · by_cases hc : c = '"'
      · rw [if_pos hc] at hmem
        simp at hmem
      · rw [if_neg hc] at hmem
        simp at hmem
        exact h.1 hmem
    · exact ih h.2 hmem

theorem escapeQuotes_head_not_ws {t : Chars} (h : ∀ c ∈ t.head?, isWs c = false) :
    ∀ c ∈ (escapeQuotes t).head?, isWs c = false := by
  cases t with
  | nil => simp [escapeQuotes]
  | cons c r =>
    by_cases hc : c = '"'
    · simp only [escapeQuotes, if_pos hc]
      intro c' hc'
      simp at hc'
      subst hc'
      decide
    · simp only [escapeQuotes, if_neg hc]
      intro c' hc'
      simp at hc'
      subst hc'
      exact h c rfl

theorem escapeQuotes_getLast_not_ws {t : Chars} (h : ∀ c ∈ t.getLast?, isWs c = false) :
    ∀ c ∈ (escapeQuotes t).getLast?, isWs c = false := by
  rcases List.eq_nil_or_concat t with rfl | ⟨r, a, rfl⟩
  · simp [escapeQuotes]
  · rw [List.concat_eq_append] at h ⊢
    have ha := h a (by simp [List.getLast?_concat])
    rw [escapeQuotes_append]
    by_cases hc : a = '"'
    · rw [show escapeQuotes [a] = ['\\', '"'] by simp [escapeQuotes, hc]]
      rw [List.getLast?_append_of_ne_nil _ (by simp)]
      intro c' hc'
      simp at hc'
      subst hc'
      decide
    · rw [show escapeQuotes [a] = [a] by simp [escapeQuotes, hc]]
      rw [List.getLast?_append_of_ne_nil _ (by simp)]
      intro c' hc'
      simp at hc'
      subst hc'
      exact ha

theorem njoin_append_single {ls : List Chars} (x : Chars) (h : ls ≠ []) :
    njoin (ls ++ [x]) = njoin ls ++ '\n' :: x := by
  induction ls with
  | nil => exact absurd rfl h
  | cons a t ih =>
    cases t with
    | nil => simp [njoin]
    | cons b r =>
      show njoin (a :: ((b :: r) ++ [x])) = (a ++ '\n' :: njoin (b :: r)) ++ '\n' :: x
      have hbr : (b :: r) ++ [x] = b :: (r ++ [x]) := rfl
      rw [hbr]
      cases hshape : r ++ [x] with
      | nil => exact absurd hshape (by simp)
      | cons z zs =>
        show a ++ '\n' :: njoin (b :: z :: zs) = (a ++ '\n' :: njoin (b :: r)) ++ '\n' :: x
        rw [← hshape, show njoin (b :: (r ++ [x])) = njoin ((b :: r) ++ [x]) from rfl,
          ih (by simp)]
        simp

theorem echoFileContent_eq_mkFile (ref : EchoRef) (b : Bool) :
    echoFileContent ref b = mkFile (fmInner ref b) (mdTail ref) := by
  unfold echoFileContent mkFile mdTail
  have hfl : frontmatterLines ref b = ("---".toList :: fmInner ref b) ++ ["---".toList] := by
    unfold frontmatterLines fmInner
    simp
  rw [hfl, njoin_append_single _ (by simp)]
  by_cases hmd : ref.markdown.isEmpty
  · simp [hmd, List.append_assoc]
  · simp [hmd, List.append_assoc]

theorem parseEchoRef_of_fmOf {content : Chars} {fm : List Chars}
    (h : fmOf content = some fm) :
    parseEchoRef content
      = (if (getField fm ("echoId".toList)).isEmpty
            || (getField fm ("privateKey".toList)).isEmpty then none
         else some { echoId := getField fm ("echoId".toList),
                     privateKey := getField fm ("privateKey".toList),
                     title := getField fm ("title".toList),
                     status := if (getField fm ("status".toList)).isEmpty then "draft".toList
                               else getField fm ("status".toList),
                     createdAt := getField fm ("createdAt".toList),
                     updatedAt := getField fm ("updatedAt".toList),
                     markdown := extractMarkdown content }) := by
  unfold parseEchoRef
  rw [h]

theorem titleCleanB_extract {s : Chars} (h : titleCleanB s = true) :
    '\n' ∉ s ∧ (∀ c ∈ s.head?, isWs c = false) ∧ (∀ c ∈ s.getLast?, isWs c = false) := by
  unfold titleCleanB at h
  rw [Bool.and_eq_true, Bool.and_eq_true] at h
  obtain ⟨⟨hall, hh⟩, hl⟩ := h
  refine ⟨?_, ?_, ?_⟩
  · intro hmem
    have := List.all_eq_true.mp hall _ hmem
    simp at this
  · intro c hc2
    cases hshape : s.head? with
    | none => simp [hshape] at hc2
    | some d =>
      rw [hshape] at hc2 hh
      have hcd : d = c := by simpa using hc2
      subst hcd
      simpa using hh
  · intro c hc2
    cases hshape : s.getLast? with
    | none => simp [hshape] at hc2
    | some d =>
      rw [hshape] at hc2 hl
      have hcd : d = c := by simpa using hc2
      subst hcd
      simpa using hl

theorem isSuffixOf_append_self (a b : Chars) : b.isSuffixOf (a ++ b) = true := by
  rw [List.isSuffixOf, List.reverse_append]
  exact isPrefixOf_append_self _ _

theorem parseEchoRef_echoFileContent (ref : EchoRef)
    (he : cleanFieldB ref.echoId = true) (hp : cleanFieldB ref.privateKey = true)
    (hs : cleanFieldB ref.status = true) (hc : cleanFieldB ref.createdAt = true)
    (hu : cleanFieldB ref.updatedAt = true) (ht : titleCleanB ref.title = true) :
    parseEchoRef (echoFileContent ref false)
      = some { echoId := ref.echoId, privateKey := ref.privateKey,
               title := escapeQuotes ref.title, status := ref.status,
               createdAt := ref.createdAt, updatedAt := ref.updatedAt,
               markdown := extractMarkdown (echoFileContent ref false) } := by
  obtain ⟨heNe, heNl, heWs, heQ⟩ := cleanFieldB_extract he
  obtain ⟨hpNe, hpNl, hpWs, hpQ⟩ := cleanFieldB_extract hp
  obtain ⟨hsNe, hsNl, hsWs, hsQ⟩ := cleanFieldB_extract hs
  obtain ⟨hcNe, hcNl, hcWs, hcQ⟩ := cleanFieldB_extract hc
  obtain ⟨huNe, huNl, huWs, huQ⟩ := cleanFieldB_extract hu
  obtain ⟨htNl, htHd, htLast⟩ := titleCleanB_extract ht
  have hdOf : ∀ {e : Chars}, (∀ c ∈ e, isWs c = false) → ∀ c ∈ e.head?, isWs c = false :=
    fun hws c hch => hws c (head?_mem hch)
  have hlOf : ∀ {e : Chars}, (∀ c ∈ e, isWs c = false) → ∀ c ∈ e.getLast?, isWs c = false :=
    fun hws c hch => hws c (getLast?_mem hch)
  have hval : ∀ {e : Chars}, e ≠ [] → (∀ c ∈ e, isWs c = false) → (∀ c ∈ e, (c == '"') = false) →
      jsTrim (stripQuotes (capture (' ' :: e))) = e := by
    intro e hne hws hq
    rw [capture_space_cons hne (hdOf hws), stripQuotes_eq_self hq,
      jsTrim_eq_self (hdOf hws) (hlOf hws)]
  have hfm6 : fmInner ref false
      = ["echoId: ".toList ++ ref.echoId,
         "privateKey: ".toList ++ ref.privateKey,
         "title: ".toList ++ '"' :: (escapeQuotes ref.title ++ ['"']),
         "status: ".toList ++ ref.status,
         "createdAt: ".toList ++ ref.createdAt,
         "updatedAt: ".toList ++ ref.updatedAt] := rfl
  have hnl : ∀ l ∈ fmInner ref false, '\n' ∉ l := by
    intro l hl
    rw [hfm6] at hl
    simp only [List.mem_cons, List.not_mem_nil, or_false] at hl
    rcases hl with rfl | rfl | rfl | rfl | rfl | rfl
    · intro hmem
      rcases List.mem_append.mp hmem with hmem | hmem
      · exact absurd hmem (by decide)
      · exact heNl hmem
    · intro hmem
      rcases List.mem_append.mp hmem with hmem | hmem
      · exact absurd hmem (by decide)
      · exact hpNl hmem
    · intro hmem
      rcases List.mem_append.mp hmem with hmem | hmem
      · exact absurd hmem (by decide)
      · rcases List.mem_cons.mp hmem with hmem | hmem
        · exact absurd hmem (by decide)
        · rcases List.mem_append.mp hmem with hmem | hmem
          · exact absurd hmem (escapeQuotes_no_nl htNl)
          · exact absurd hmem (by decide)
    · intro hmem
      rcases List.mem_append.mp hmem with hmem | hmem
      · exact absurd hmem (by decide)
      · exact hsNl hmem
    · intro hmem
      rcases List.mem_append.mp hmem with hmem | hmem
      · exact absurd hmem (by decide)
      · exact hcNl hmem
    · intro hmem
      rcases List.mem_append.mp hmem with hmem | hmem
      · exact absurd hmem (by decide)
      · exact huNl hmem
  have hd3 : ∀ l ∈ fmInner ref false, ("---".toList).isPrefixOf l = false := by
    intro l hl
    rw [hfm6] at hl
    simp only [List.mem_cons, List.not_mem_nil, or_false] at hl
    rcases hl with rfl | rfl | rfl | rfl | rfl | rfl <;> rfl
  have hge : getField (fmInner ref false) ("echoId".toList) = ref.echoId := by
    rw [show getField (fmInner ref false) ("echoId".toList)
        = jsTrim (stripQuotes (capture (' ' :: ref.echoId))) from rfl]
    exact hval heNe heWs heQ
  have hgp : getField (fmInner ref false) ("privateKey".toList) = ref.privateKey := by
    rw [show getField (fmInner ref false) ("privateKey".toList)
        = jsTrim (stripQuotes (capture (' ' :: ref.privateKey))) from rfl]
    exact hval hpNe hpWs hpQ
  have hgs : getField (fmInner ref false) ("status".toList) = ref.status := by
    rw [show getField (fmInner ref false) ("status".toList)
        = jsTrim (stripQuotes (capture (' ' :: ref.status))) from rfl]
    exact hval hsNe hsWs hsQ
  have hgc : getField (fmInner ref false) ("createdAt".toList) = ref.createdAt := by
    rw [show getField (fmInner ref false) ("createdAt".toList)
        = jsTrim (stripQuotes (capture (' ' :: ref.createdAt))) from rfl]
    exact hval hcNe hcWs hcQ
  have hgu : getField (fmInner ref false) ("updatedAt".toList) = ref.updatedAt := by
    rw [show getField (fmInner ref false) ("updatedAt".toList)
        = jsTrim (stripQuotes (capture (' ' :: ref.updatedAt))) from rfl]
    exact hval huNe huWs huQ
  have hgt : getField (fmInner ref false) ("title".toList) = escapeQuotes ref.title := by
    rw [show getField (fmInner ref false) ("title".toList)
        = jsTrim (stripQuotes (capture (' ' :: '"' :: (escapeQuotes ref.title ++ ['"'])))) from rfl]
    have hcap : capture (' ' :: '"' :: (escapeQuotes ref.title ++ ['"']))
        = '"' :: (escapeQuotes ref.title ++ ['"']) := by
      unfold capture
      rw [List.dropWhile_cons_of_pos (by decide), List.dropWhile_cons_of_neg (by decide)]
      simp
    rw [hcap]
    have hsq : stripQuotes ('"' :: (escapeQuotes ref.title ++ ['"'])) = escapeQuotes ref.title := by
      rw [show stripQuotes ('"' :: (escapeQuotes ref.title ++ ['"']))
          = (if (escapeQuotes ref.title ++ ['"']).getLast? = some '"'
             then (escapeQuotes ref.title ++ ['"']).dropLast
             else (escapeQuotes ref.title ++ ['"'])) from rfl]
      rw [if_pos (List.getLast?_concat _)]
      simp
    rw [hsq]
    exact jsTrim_eq_self (escapeQuotes_head_not_ws htHd) (escapeQuotes_getLast_not_ws htLast)
  rw [echoFileContent_eq_mkFile,
    parseEchoRef_of_fmOf (fmOf_mkFile (mdTail ref) (by rw [hfm6]; simp) hnl hd3),
    hge, hgp, hgt, hgs, hgc, hgu,
    if_neg (by simp [List.isEmpty_eq_false.mpr heNe, List.isEmpty_eq_false.mpr hpNe]),
    if_neg (by simp [List.isEmpty_eq_false.mpr hsNe])]

/-! ## Claim C5 -/

/-- C5 (counterexample): the claim states that writing a reference whose
title contains double quotes and reading the catalog back yields the title
with the quotes unescaped, exactly as supplied.  On the code, the writer
escapes each quote as backslash-quote and the parser never unescapes, so
the round-tripped title is the escaped form: the original title (with its
bare quotes) does not even occur inside it. -/
theorem echoRef_roundtrip_quotes_counterexample :
    (readEchoRefs (writeEchoRefOp [] c5Ref none)).map (·.title) = ["a\\\"b".toList] ∧
    ¬ (readEchoRefs (writeEchoRefOp [] c5Ref none)).map (·.title) = [c5Ref.title] ∧
    ¬ c5Ref.title <:+: "a\\\"b".toList := by
  decide

/-- C5 (amended): for every reference with well-behaved fields (nonempty
ids/status/timestamps without whitespace, quotes or newlines; a title with
no newline and no whitespace at its ends), writing it and reading the
catalog back yields exactly one record; its `echoId`, `privateKey`,
`status`, `createdAt` and `updatedAt` come back uncorrupted, and its title
comes back as the writer-escaped form of the original — every double quote
preceded by an inserted backslash (escaped, not unescaped). -/
theorem echoRef_roundtrip_escaped (ref : EchoRef)
    (he : cleanFieldB ref.echoId = true) (hp : cleanFieldB ref.privateKey = true)
    (hs : cleanFieldB ref.status = true) (hc : cleanFieldB ref.createdAt = true)
    (hu : cleanFieldB ref.updatedAt = true) (ht : titleCleanB ref.title = true) :
    readEchoRefs (writeEchoRefOp [] ref none)
      = [{ echoId := ref.echoId, privateKey := ref.privateKey,
           title := escapeQuotes ref.title, status := ref.status,
           createdAt := ref.createdAt, updatedAt := ref.updatedAt,
           markdown := extractMarkdown (echoFileContent ref false) }] := by
  have hparse := parseEchoRef_echoFileContent ref he hp hs hc hu ht
  have hw : writeEchoRefOp [] ref none
      = [(ref.echoId ++ ".md".toList, echoFileContent ref false)] := rfl
  have hsuf : (".md".toList).isSuffixOf (ref.echoId ++ ".md".toList) = true :=
    isSuffixOf_append_self _ _
  have hnejson : ¬ (ref.echoId ++ ".md".toList = ref.echoId ++ ".json".toList) := by
    intro hcontra
    exact absurd (List.append_cancel_left hcontra) (by decide)
  rw [hw]
  unfold readEchoRefs
  rw [List.filterMap_cons]
  simp only [hsuf, if_true, hparse, Option.map_some, List.any_cons, List.any_nil,
    Bool.or_false, List.filterMap_nil]
  simp [hnejson, List.insertionSort, List.orderedInsert]

/-- Witness for C5 (amended) at the concrete quoted-title reference. -/
theorem echoRef_roundtrip_escaped_witness :
    readEchoRefs (writeEchoRefOp [] c5Ref none)
      = [{ echoId := c5Ref.echoId, privateKey := c5Ref.privateKey,
           title := escapeQuotes c5Ref.title, status := c5Ref.status,
           createdAt := c5Ref.createdAt, updatedAt := c5Ref.updatedAt,
           markdown := extractMarkdown (echoFileContent c5Ref false) }] :=
  echoRef_roundtrip_escaped c5Ref (by decide) (by decide) (by decide) (by decide)
    (by decide) (by decide)

/-! ## Claim C10 -/

/-- C10: for every catalog file with a frontmatter block whose lines carry
`echoId` and `privateKey` values but whose `status` field is missing or
empty, `parseEchoRef` returns a record with the default status `draft`;
and for every file whose frontmatter is missing `echoId` or `privateKey`,
`parseEchoRef` yields no record and `readEchoRefs` skips the file
entirely.  Both parts quantify over nonempty frontmatter line lists (in
the first part this follows from the `echoId` hypothesis): the regex's
capture always spans at least one line, so every file that has a
frontmatter block at all is of this shape. -/
theorem parseEchoRef_draft_default_and_skip :
    (∀ (fm : List Chars) (rest : Chars),
      (∀ l ∈ fm, '\n' ∉ l) → (∀ l ∈ fm, ("---".toList).isPrefixOf l = false) →
      getField fm ("echoId".toList) ≠ [] → getField fm ("privateKey".toList) ≠ [] →
      getField fm ("status".toList) = [] →
      (parseEchoRef (mkFile fm rest)).map (·.status) = some ("draft".toList)) ∧
    (∀ (fm : List Chars) (rest : Chars) (name : Chars), fm ≠ [] →
      (∀ l ∈ fm, '\n' ∉ l) → (∀ l ∈ fm, ("---".toList).isPrefixOf l = false) →
      (getField fm ("echoId".toList) = [] ∨ getField fm ("privateKey".toList) = []) →
      parseEchoRef (mkFile fm rest) = none ∧ readEchoRefs [(name, mkFile fm rest)] = []) := by
  constructor
  · intro fm rest hnl hd3 hei hpk hst
    have hfne : fm ≠ [] := by
      intro h
      subst h
      exact hei rfl
    rw [parseEchoRef_of_fmOf (fmOf_mkFile rest hfne hnl hd3),
      if_neg (by simp [List.isEmpty_iff]; exact ⟨hei, hpk⟩)]
    show some (if (getField fm ("status".toList)).isEmpty then "draft".toList
               else getField fm ("status".toList)) = some ("draft".toList)
    rw [hst]
    rfl
  · intro fm rest name hfne hnl hd3 hmiss
    have hparse : parseEchoRef (mkFile fm rest) = none := by
      rw [parseEchoRef_of_fmOf (fmOf_mkFile rest hfne hnl hd3)]
      rcases hmiss with h | h
      · rw [if_pos (by simp [List.isEmpty_iff]; exact Or.inl h)]
      · rw [if_pos (by simp [List.isEmpty_iff]; exact Or.inr h)]
    refine ⟨hparse, ?_⟩
    unfold readEchoRefs
    rw [List.filterMap_cons]
    by_cases hsuf : (['.', 'm', 'd'] : Chars) <:+ name
    · simp [hsuf, hparse, List.insertionSort]
    · simp [hsuf, List.insertionSort]

/-- Witness for C10 at concrete frontmatter line lists. -/
theorem parseEchoRef_draft_default_and_skip_witness :
    (parseEchoRef (mkFile c10FmA ['\n'])).map (·.status) = some ("draft".toList) ∧
    parseEchoRef (mkFile c10FmB ['\n']) = none ∧
    readEchoRefs [("f.md".toList, mkFile c10FmB ['\n'])] = [] :=
  ⟨parseEchoRef_draft_default_and_skip.1 c10FmA ['\n'] (by decide) (by decide)
      (by decide) (by decide) (by decide),
   (parseEchoRef_draft_default_and_skip.2 c10FmB ['\n'] ("f.md".toList) (by decide)
      (by decide) (by decide) (by decide)).1,
   (parseEchoRef_draft_default_and_skip.2 c10FmB ['\n'] ("f.md".toList) (by decide)
      (by decide) (by decide) (by decide)).2⟩
